import Mathlib

/-!
Verification of the Robot-Builder kinematics core and scene store.

The simulator's kinematics engine (`simulator/src/lib/kinematics.ts`, with
the scene data types and `getGeometryBounds` from the scene module) is
embedded over the real numbers `ℝ`: THREE.js `Matrix4` values are affine
transforms (a 3x3 linear part plus a translation), since the code only ever
builds them from translations and rotations and applies them to points.

The scene-authoring store (`updateJoint`, `addJoint`, `addLink`, the joint
name bookkeeping and the remote/interpolated value writers) is embedded over
`ℚ`, fully executable.
-/

namespace RobotBuilder

/-- Joint motion kind (`'rotational' | 'linear'`). -/
inductive MotionType where
  | rotational
  | linear
deriving DecidableEq

/-- Joint motion axis (`'x' | 'y' | 'z'`). -/
inductive MotionAxis where
  | x
  | y
  | z
deriving DecidableEq

namespace Kin

/-- A 3-vector of reals (THREE.Vector3). -/
@[ext]
structure Vec3 where
  x : ℝ
  y : ℝ
  z : ℝ

namespace Vec3

def add (a b : Vec3) : Vec3 := ⟨a.x + b.x, a.y + b.y, a.z + b.z⟩

def neg (a : Vec3) : Vec3 := ⟨-a.x, -a.y, -a.z⟩

def sub (a b : Vec3) : Vec3 := ⟨a.x - b.x, a.y - b.y, a.z - b.z⟩

def smul (r : ℝ) (a : Vec3) : Vec3 := ⟨r * a.x, r * a.y, r * a.z⟩

instance : Add Vec3 := ⟨add⟩
instance : Neg Vec3 := ⟨neg⟩
instance : Sub Vec3 := ⟨sub⟩
instance : SMul ℝ Vec3 := ⟨smul⟩
instance : Zero Vec3 := ⟨⟨0, 0, 0⟩⟩

/-- THREE.Vector3.dot. -/
def dot (a b : Vec3) : ℝ := a.x * b.x + a.y * b.y + a.z * b.z

/-- THREE.Vector3.cross. -/
def cross (a b : Vec3) : Vec3 :=
  ⟨a.y * b.z - a.z * b.y, a.z * b.x - a.x * b.z, a.x * b.y - a.y * b.x⟩

/-- THREE.Vector3.length. -/
noncomputable def length (a : Vec3) : ℝ := Real.sqrt (dot a a)

/-- THREE.Vector3.normalize: `divideScalar(length() || 1)`, so the zero
vector (length 0) is left unchanged. -/
noncomputable def normalize (a : Vec3) : Vec3 :=
  if length a = 0 then a else (length a)⁻¹ • a

/-- THREE.Vector3.distanceTo. -/
noncomputable def distanceTo (a b : Vec3) : ℝ := length (a - b)

end Vec3

/-- A 3x3 real matrix with explicit entries (row-major). -/
@[ext]
structure Mat3 where
  m00 : ℝ
  m01 : ℝ
  m02 : ℝ
  m10 : ℝ
  m11 : ℝ
  m12 : ℝ
  m20 : ℝ
  m21 : ℝ
  m22 : ℝ

namespace Mat3

def idMat : Mat3 := ⟨1, 0, 0, 0, 1, 0, 0, 0, 1⟩

def mul (a b : Mat3) : Mat3 :=
  ⟨a.m00 * b.m00 + a.m01 * b.m10 + a.m02 * b.m20,
   a.m00 * b.m01 + a.m01 * b.m11 + a.m02 * b.m21,
   a.m00 * b.m02 + a.m01 * b.m12 + a.m02 * b.m22,
   a.m10 * b.m00 + a.m11 * b.m10 + a.m12 * b.m20,
   a.m10 * b.m01 + a.m11 * b.m11 + a.m12 * b.m21,
   a.m10 * b.m02 + a.m11 * b.m12 + a.m12 * b.m22,
   a.m20 * b.m00 + a.m21 * b.m10 + a.m22 * b.m20,
   a.m20 * b.m01 + a.m21 * b.m11 + a.m22 * b.m21,
   a.m20 * b.m02 + a.m21 * b.m12 + a.m22 * b.m22⟩

def mulVec (m : Mat3) (v : Vec3) : Vec3 :=
  ⟨m.m00 * v.x + m.m01 * v.y + m.m02 * v.z,
   m.m10 * v.x + m.m11 * v.y + m.m12 * v.z,
   m.m20 * v.x + m.m21 * v.y + m.m22 * v.z⟩

/-- THREE.Matrix4.makeRotationX (linear part). -/
noncomputable def rotX (t : ℝ) : Mat3 :=
  ⟨1, 0, 0, 0, Real.cos t, -Real.sin t, 0, Real.sin t, Real.cos t⟩

/-- THREE.Matrix4.makeRotationY (linear part). -/
noncomputable def rotY (t : ℝ) : Mat3 :=
  ⟨Real.cos t, 0, Real.sin t, 0, 1, 0, -Real.sin t, 0, Real.cos t⟩

/-- THREE.Matrix4.makeRotationZ (linear part). -/
noncomputable def rotZ (t : ℝ) : Mat3 :=
  ⟨Real.cos t, -Real.sin t, 0, Real.sin t, Real.cos t, 0, 0, 0, 1⟩

end Mat3

/-- An affine transform: the shape every THREE.Matrix4 in the kinematics
code actually has (last row 0 0 0 1).  `lin` is the rotational 3x3 block,
`tr` the translation column.  `Matrix3().setFromMatrix4(m)` extracts `lin`. -/
@[ext]
structure Aff where
  lin : Mat3
  tr : Vec3

namespace Aff

/-- `a.comp b` is THREE's `aMatrix.multiply(bMatrix)` (then applied to
points: first `b`, then `a`). -/
def comp (a b : Aff) : Aff := ⟨a.lin.mul b.lin, a.lin.mulVec b.tr + a.tr⟩

/-- `Vector3.applyMatrix4` (point transform, w = 1). -/
def apply (a : Aff) (v : Vec3) : Vec3 := a.lin.mulVec v + a.tr

/-- THREE.Matrix4.makeTranslation. -/
def translation (v : Vec3) : Aff := ⟨Mat3.idMat, v⟩

/-- A pure rotation matrix. -/
def rot (m : Mat3) : Aff := ⟨m, 0⟩

/-- The identity matrix (`new THREE.Matrix4()`). -/
def idAff : Aff := ⟨Mat3.idMat, 0⟩

end Aff

/-- Axis-aligned bounding envelope of a geometry (scene module). -/
@[ext]
structure GeometryBounds where
  width : ℝ
  depth : ℝ
  height : ℝ
  radial : ℝ

/-- The simulator's `MeshGeometry` union.  `unknownKind` stands for a raw
runtime value whose `kind` tag matches none of the declared variants, the
case handled by the `default` branch of `getGeometryBounds`. -/
inductive MeshGeometry where
  | box (width height depth : ℝ)
  | cylinder (radius height : ℝ)
  | sphere (radius : ℝ)
  | cone (radius height : ℝ)
  | capsule (radius length : ℝ)
  | custom (sourceName data : String) (scale unitScale : ℝ)
      (bounds : GeometryBounds) (originOffset : Vec3)
  | unknownKind

/-- `getGeometryBounds` from the scene module.  In the `custom` case the
source guards with `Number.isFinite(geometry.scale)`; every real number is
finite, so the guard always takes the scale itself here. -/
noncomputable def getGeometryBounds : MeshGeometry → GeometryBounds
  | .box width height depth =>
      ⟨width, depth, height, max width depth / 2⟩
  | .cylinder radius height =>
      ⟨radius * 2, radius * 2, height, radius⟩
  | .sphere radius =>
      ⟨radius * 2, radius * 2, radius * 2, radius⟩
  | .cone radius height =>
      ⟨radius * 2, radius * 2, height, radius⟩
  | .capsule radius len =>
      ⟨radius * 2, radius * 2, len + radius * 2, radius⟩
  | .custom _ _ scale _ bounds _ =>
      ⟨bounds.width * scale, bounds.depth * scale,
       bounds.height * scale, bounds.radial * scale⟩
  | .unknownKind => ⟨0.3, 0.3, 0.3, 0.15⟩

/-- `axisToVector` from the scene module. -/
def axisToVector : MotionAxis → Vec3
  | .x => ⟨1, 0, 0⟩
  | .y => ⟨0, 1, 0⟩
  | .z => ⟨0, 0, 1⟩

/-- `JointDefinition` of the simulator scene module. -/
structure JointDefinition where
  id : String
  type : MotionType
  axis : MotionAxis
  limits : ℝ × ℝ
  currentValue : ℝ
  name : String
  externalControl : Bool
  pivot : Vec3

/-- `LinkNode` of the simulator scene module. -/
structure LinkNode where
  id : String
  name : String
  geometry : MeshGeometry
  color : String
  parentId : Option String
  children : List String
  baseOffset : Vec3
  staticRotation : Vec3
  joints : List JointDefinition
  notes : Option String

/-- `PoseDefinition` of the simulator scene module (passed through
untouched by the kinematics code). -/
structure PoseDefinition where
  id : String
  name : String
  values : List (String × ℝ)
  createdAt : ℝ

/-- `SceneData`: an id-keyed record of nodes plus the root id.  The record
is an association list whose lookup takes the first matching key. -/
structure SceneData where
  rootId : String
  nodes : List (String × LinkNode)
  poses : Option (List PoseDefinition)

/-- Record lookup `scene.nodes[id]`. -/
def lookupNode (s : SceneData) (id : String) : Option LinkNode :=
  (s.nodes.find? (fun p => p.1 == id)).map (fun p => p.2)

noncomputable def DEG_TO_RAD : ℝ := Real.pi / 180
noncomputable def MM_TO_M : ℝ := 1 / 1000
noncomputable def M_TO_MM : ℝ := 1000

/-- `computeBaseTranslation`: the root node's base offset is raised by half
its bounding height; every other node uses its base offset as is. -/
noncomputable def computeBaseTranslation (node : LinkNode) (isRoot : Bool) : Vec3 :=
  if isRoot then
    ⟨node.baseOffset.x, node.baseOffset.y,
     node.baseOffset.z + (getGeometryBounds node.geometry).height / 2⟩
  else
    ⟨node.baseOffset.x, node.baseOffset.y, node.baseOffset.z⟩

/-- `applyJointTransform`: pivot translate, rotate about (or translate
along, scaled mm → m) the joint axis by the current value, pivot
untranslate; all post-multiplied onto the accumulating matrix. -/
noncomputable def applyJointTransform (M : Aff) (j : JointDefinition) : Aff :=
  let p := j.pivot
  let M1 := M.comp (Aff.translation p)
  let M2 :=
    if j.type = MotionType.rotational then
      let radians := j.currentValue * DEG_TO_RAD
      match j.axis with
      | .x => M1.comp (Aff.rot (Mat3.rotX radians))
      | .y => M1.comp (Aff.rot (Mat3.rotY radians))
      | .z => M1.comp (Aff.rot (Mat3.rotZ radians))
    else
      M1.comp (Aff.translation ((j.currentValue * MM_TO_M) • axisToVector j.axis))
  M2.comp (Aff.translation (-p))

/-- Per-joint world state recorded during the forward pass. -/
structure JointWorldState where
  nodeId : String
  jointIndex : Nat
  joint : JointDefinition
  pivot : Vec3
  axis : Vec3

/-- Per-node world state. -/
structure NodeWorldState where
  id : String
  worldMatrix : Aff
  position : Vec3
  joints : List JointWorldState

/-- Whole-scene world state (id-keyed record). -/
structure SceneWorldState where
  nodes : List (String × NodeWorldState)

/-- THREE `Euler(x, y, z, 'XYZ')` fed to `makeRotationFromEuler`:
`Rx(x) · Ry(y) · Rz(z)` on the linear part. -/
noncomputable def eulerXYZ (r : Vec3) : Mat3 :=
  (Mat3.rotX (r.x * DEG_TO_RAD)).mul
    ((Mat3.rotY (r.y * DEG_TO_RAD)).mul (Mat3.rotZ (r.z * DEG_TO_RAD)))

/-- The matrix accumulated at a node before its joints: parent matrix,
then base translation, then (when any component exceeds 1e-6 in absolute
value) the static XYZ Euler rotation. -/
noncomputable def nodePreMatrix (isRoot : Bool) (node : LinkNode) (parentM : Aff) : Aff :=
  let M := parentM.comp (Aff.translation (computeBaseTranslation node isRoot))
  let r := node.staticRotation
  if 1e-6 < |r.x| ∨ 1e-6 < |r.y| ∨ 1e-6 < |r.z| then
    M.comp (Aff.rot (eulerXYZ r))
  else
    M

/-- The per-joint fold of `computeKinematics`: for each joint record the
world pivot (`pivot.applyMatrix4(matrix)`) and world axis (local axis
through the rotation-only part of the current matrix, normalized), then
advance the matrix by `applyJointTransform`.  Returns the recorded states
and the final matrix. -/
noncomputable def jointStatesAux (nodeId : String) :
    Nat → Aff → List JointDefinition → List JointWorldState × Aff
  | _, M, [] => ([], M)
  | idx, M, j :: rest =>
      let axisVector := Vec3.normalize (M.lin.mulVec (axisToVector j.axis))
      let piv := M.apply j.pivot
      let res := jointStatesAux nodeId (idx + 1) (applyJointTransform M j) rest
      (⟨nodeId, idx, j, piv, axisVector⟩ :: res.1, res.2)

/-- One node's world state from its pre-joint matrix: joint states, final
world matrix, and world origin. -/
noncomputable def mkNodeState (nodeId : String) (M0 : Aff) (node : LinkNode) :
    NodeWorldState :=
  let res := jointStatesAux nodeId 0 M0 node.joints
  ⟨nodeId, res.2, res.2.apply 0, res.1⟩

/-- The depth-first pre-order walk of `computeKinematics`.  The source
recurses along `children` lists without a bound (terminating because the
scene is a tree); here `fuel` bounds the recursion depth and is
instantiated with the node count, which dominates the depth of any tree. -/
noncomputable def traverse (s : SceneData) : Nat → String → Aff → List (String × NodeWorldState)
  | 0, _, _ => []
  | fuel + 1, nodeId, parentM =>
      match lookupNode s nodeId with
      | none => []
      | some node =>
          let M0 := nodePreMatrix (nodeId == s.rootId) node parentM
          let st := mkNodeState nodeId M0 node
          (nodeId, st) ::
            node.children.flatMap (fun c => traverse s fuel c st.worldMatrix)

/-- `computeKinematics`: full forward pass from the root with the identity
parent matrix. -/
noncomputable def computeKinematics (s : SceneData) : SceneWorldState :=
  ⟨traverse s s.nodes.length s.rootId Aff.idAff⟩

/-- Record lookup in a world state. -/
def stateFor (w : SceneWorldState) (id : String) : Option NodeWorldState :=
  (w.nodes.find? (fun p => p.1 == id)).map (fun p => p.2)

/-- The reported world pivot point of joint `i` of node `n`. -/
def pivotAt (w : SceneWorldState) (n : String) (i : Nat) : Option Vec3 :=
  (stateFor w n).bind (fun st => (st.joints[i]?).map (fun js => js.pivot))

/-- The reported world motion axis of joint `i` of node `n`. -/
def axisAt (w : SceneWorldState) (n : String) (i : Nat) : Option Vec3 :=
  (stateFor w n).bind (fun st => (st.joints[i]?).map (fun js => js.axis))

/-- The reported world origin of node `n`. -/
def positionAt (w : SceneWorldState) (n : String) : Option Vec3 :=
  (stateFor w n).map (fun st => st.position)

/-- The reported world pivot of joint `i` of node `n`, read off a raw
traversal result list. -/
def pivotInList (l : List (String × NodeWorldState)) (n : String) (i : Nat) : Option Vec3 :=
  (l.find? (fun p => p.1 == n)).bind (fun p => (p.2.joints[i]?).map (fun js => js.pivot))

/-- The reported joint world states of node `n` (ordered). -/
def jointStatesAt (w : SceneWorldState) (n : String) : Option (List JointWorldState) :=
  (stateFor w n).map (fun st => st.joints)

/-- `worldTransform` fold over a list of joints (used to state which
transform the per-joint records are taken against). -/
noncomputable def applyJoints (M : Aff) (l : List JointDefinition) : Aff :=
  l.foldl applyJointTransform M

/-- Projection of a traversal result onto world matrices and world origins
only (everything except the per-joint records). -/
def skelList (l : List (String × NodeWorldState)) : List (String × Aff × Vec3) :=
  l.map (fun p => (p.1, p.2.worldMatrix, p.2.position))

/-- `skelList` of a whole world state. -/
def skelOf (w : SceneWorldState) : List (String × Aff × Vec3) :=
  skelList w.nodes

/-- Replace element `i` of a list with `f` of it (out-of-range writes are
dropped, as in a JS array index assignment within bounds). -/
def modifyAt {α : Type} (f : α → α) : Nat → List α → List α
  | _, [] => []
  | 0, a :: rest => f a :: rest
  | n + 1, a :: rest => a :: modifyAt f n rest

/-- Overwrite the `currentValue` of joint `i` of node `nodeId` (the write
the IK solver performs, and the variation quantified over in the pivot
invariance property). -/
def setJointValue (s : SceneData) (nodeId : String) (i : Nat) (v : ℝ) : SceneData :=
  { s with
    nodes := s.nodes.map (fun p =>
      if p.1 = nodeId then
        (p.1, { p.2 with
                joints := modifyAt (fun j => { j with currentValue := v }) i p.2.joints })
      else p) }

/-- Overwrite the `pivot` of joint `i` of node `nodeId`. -/
def setJointPivot (s : SceneData) (nodeId : String) (i : Nat) (pv : Vec3) : SceneData :=
  { s with
    nodes := s.nodes.map (fun p =>
      if p.1 = nodeId then
        (p.1, { p.2 with
                joints := modifyAt (fun j => { j with pivot := pv }) i p.2.joints })
      else p) }

/-- `gatherPath`'s while loop: walk `parentId` references upward, stopping
at a missing node, an absent parent, or a JS-falsy (empty) id; the source
pushes then reverses, here the accumulator prepends.  The loop is bounded
by the node count plus one, which covers every ancestor chain in a tree. -/
def gatherPathAux (s : SceneData) : Nat → Option String → List String → List String
  | 0, _, acc => acc
  | fuel + 1, cur, acc =>
      match cur with
      | none => acc
      | some id =>
          if id = "" then acc
          else gatherPathAux s fuel ((lookupNode s id).bind (fun n => n.parentId)) (id :: acc)

/-- `gatherPath`: the root-to-target chain of node ids. -/
def gatherPath (s : SceneData) (targetId : String) : List String :=
  gatherPathAux s (s.nodes.length + 1) (some targetId) []

/-- Record assignment `values[k] = v` (overwrite or append). -/
def recordSet (m : List (String × ℝ)) (k : String) (v : ℝ) : List (String × ℝ) :=
  if m.any (fun p => p.1 == k) then m.map (fun p => if p.1 == k then (k, v) else p)
  else m ++ [(k, v)]

/-- `collectJointValues`: name → currentValue snapshot over all nodes,
skipping JS-falsy (empty) names. -/
def collectJointValues (s : SceneData) : List (String × ℝ) :=
  s.nodes.foldl
    (fun acc p =>
      p.2.joints.foldl
        (fun acc j => if j.name = "" then acc else recordSet acc j.name j.currentValue)
        acc)
    []

/-- `cloneJoint`: a field-by-field deep copy. -/
def cloneJoint (j : JointDefinition) : JointDefinition :=
  ⟨j.id, j.type, j.axis, (j.limits.1, j.limits.2), j.currentValue, j.name,
   j.externalControl, ⟨j.pivot.x, j.pivot.y, j.pivot.z⟩⟩

/-- `cloneSceneAlongPath`: copy-on-write of the nodes on the path (spread
node, deep-copy joints); all other entries are shared. -/
def cloneSceneAlongPath (s : SceneData) (path : List String) : SceneData :=
  { s with
    nodes := s.nodes.map (fun p =>
      if p.1 ∈ path then (p.1, { p.2 with joints := p.2.joints.map cloneJoint })
      else p) }

/-- One entry of the solver's joint chain. -/
structure ChainRef where
  nodeId : String
  index : Nat
  joint : JointDefinition

/-- The adjustable joint chain: all joints of the nodes along the path, in
path order. -/
def jointChainOf (s : SceneData) (path : List String) : List ChainRef :=
  path.flatMap (fun nodeId =>
    match lookupNode s nodeId with
    | none => []
    | some node => node.joints.enum.map (fun p => ⟨nodeId, p.1, p.2⟩))

/-- Equality of joints up to `currentValue`. -/
def JointEqExceptValue (j j2 : JointDefinition) : Prop :=
  j.id = j2.id ∧ j.type = j2.type ∧ j.axis = j2.axis ∧ j.limits = j2.limits ∧
  j.name = j2.name ∧ j.externalControl = j2.externalControl ∧ j.pivot = j2.pivot

/-- Equality of nodes up to the `currentValue` fields of their joints. -/
def NodeEqExceptJointValues (n n2 : LinkNode) : Prop :=
  n.id = n2.id ∧ n.name = n2.name ∧ n.geometry = n2.geometry ∧ n.color = n2.color ∧
  n.parentId = n2.parentId ∧ n.children = n2.children ∧ n.baseOffset = n2.baseOffset ∧
  n.staticRotation = n2.staticRotation ∧ n.notes = n2.notes ∧
  List.Forall₂ JointEqExceptValue n.joints n2.joints

/-- Scene `s2` equals scene `s` except possibly the `currentValue` fields
of joints belonging to nodes whose id lies on `path`: same root id, same
poses, same node record keys in the same order, with off-path entries
exactly equal. -/
def SceneEqExceptPathJointValues (path : List String) (s s2 : SceneData) : Prop :=
  s.rootId = s2.rootId ∧ s.poses = s2.poses ∧
  List.Forall₂
    (fun p q : String × LinkNode =>
      p.1 = q.1 ∧ (if p.1 ∈ path then NodeEqExceptJointValues p.2 q.2 else p.2 = q.2))
    s.nodes s2.nodes

structure IkOptions where
  maxIterations : Option Nat
  tolerance : Option ℝ

structure IkResult where
  scene : SceneData
  jointValues : List (String × ℝ)
  success : Bool

/-- The solver's local `clamp` (`Math.min(Math.max(value, min), max)`). -/
noncomputable def clamp (value lo hi : ℝ) : ℝ := min (max value lo) hi

/-- `THREE.MathUtils.clamp` (`Math.max(min, Math.min(max, value))`). -/
noncomputable def mathClamp (value lo hi : ℝ) : ℝ := max lo (min hi value)

/-- `THREE.MathUtils.radToDeg`. -/
noncomputable def radToDeg (x : ℝ) : ℝ := x * (180 / Real.pi)

/-- `projectOntoPlane`: remove the component along `normal`. -/
noncomputable def projectOntoPlane (vector normal : Vec3) : Vec3 :=
  vector - (Vec3.dot vector normal) • normal

/-- The body of the solver's inner loop for one chain entry: recompute the
world state and correct this joint (or skip it).  `Number.isFinite` guards
from the source are omitted: every value of `ℝ` is finite.  Returns the
scene and whether the joint value was changed. -/
noncomputable def ikStep (targetNodeId : String) (target : Vec3) (s : SceneData)
    (ref : ChainRef) : SceneData × Bool :=
  match lookupNode s ref.nodeId with
  | none => (s, false)
  | some node =>
      match node.joints[ref.index]? with
      | none => (s, false)
      | some joint =>
          let worldState := computeKinematics s
          match stateFor worldState ref.nodeId, stateFor worldState targetNodeId with
          | some nodeState, some effectorState =>
              match nodeState.joints[ref.index]? with
              | none => (s, false)
              | some jointState =>
                  let effector := effectorState.position
                  let pivot := jointState.pivot
                  let toEffector := effector - pivot
                  let toTarget := target - pivot
                  if joint.type = MotionType.rotational then
                    let axis := Vec3.normalize jointState.axis
                    let currentProjection := projectOntoPlane toEffector axis
                    let targetProjection := projectOntoPlane toTarget axis
                    let currentLength := Vec3.length currentProjection
                    let targetLength := Vec3.length targetProjection
                    if currentLength < 1e-5 ∨ targetLength < 1e-5 then (s, false)
                    else
                      let cp := Vec3.normalize currentProjection
                      let tp := Vec3.normalize targetProjection
                      let d := mathClamp (Vec3.dot cp tp) (-1) 1
                      let angle0 := Real.arccos d
                      let crossV := Vec3.cross cp tp
                      let direction : ℝ := if Vec3.dot crossV axis < 0 then -1 else 1
                      let angle := angle0 * direction
                      if |angle| < 1e-4 then (s, false)
                      else
                        let nextValue :=
                          clamp (joint.currentValue + radToDeg angle)
                            joint.limits.1 joint.limits.2
                        if |nextValue - joint.currentValue| < 1e-3 then (s, false)
                        else (setJointValue s ref.nodeId ref.index nextValue, true)
                  else
                    let axis := Vec3.normalize jointState.axis
                    let currentDistance := Vec3.dot toEffector axis
                    let targetDistance := Vec3.dot toTarget axis
                    let delta := targetDistance - currentDistance
                    if |delta| < 1e-5 then (s, false)
                    else
                      let nextValue :=
                        clamp (joint.currentValue + delta * M_TO_MM)
                          joint.limits.1 joint.limits.2
                      if |nextValue - joint.currentValue| < 1e-3 then (s, false)
                      else (setJointValue s ref.nodeId ref.index nextValue, true)
          | _, _ => (s, false)

/-- One sweep over the chain, most-distal joint first; accumulates whether
any joint changed. -/
noncomputable def ikSweep (targetNodeId : String) (target : Vec3)
    (chain : List ChainRef) (s : SceneData) : SceneData × Bool :=
  chain.reverse.foldl
    (fun acc ref =>
      let res := ikStep targetNodeId target acc.1 ref
      (res.1, acc.2 || res.2))
    (s, false)

/-- The iteration loop: sweep, then measure the effector distance; stop
with success within tolerance, stop without success when a sweep changed
nothing, otherwise continue up to the iteration budget. -/
noncomputable def ikIterate (targetNodeId : String) (target : Vec3) (tolerance : ℝ)
    (chain : List ChainRef) : Nat → SceneData → SceneData × Bool
  | 0, s => (s, false)
  | n + 1, s =>
      let swept := ikSweep targetNodeId target chain s
      let finalState := computeKinematics swept.1
      match positionAt finalState targetNodeId with
      | some effector =>
          if Vec3.distanceTo effector target ≤ tolerance then (swept.1, true)
          else if swept.2 then ikIterate targetNodeId target tolerance chain n swept.1
          else (swept.1, false)
      | none =>
          if swept.2 then ikIterate targetNodeId target tolerance chain n swept.1
          else (swept.1, false)

/-- `solveIkForNode` with its two no-adjustable-joints early returns,
copy-on-write clone, and defaulted options. -/
noncomputable def solveIkForNode (s : SceneData) (targetNodeId : String)
    (target : Vec3) (options : IkOptions) : IkResult :=
  let path := gatherPath s targetNodeId
  if path.length = 0 then ⟨s, collectJointValues s, false⟩
  else
    let jointChain := jointChainOf s path
    if jointChain.length = 0 then ⟨s, collectJointValues s, false⟩
    else
      let workingScene := cloneSceneAlongPath s path
      let maxIterations := options.maxIterations.getD 12
      let tolerance := options.tolerance.getD 0.005
      let res := ikIterate targetNodeId target tolerance jointChain maxIterations workingScene
      ⟨res.1, collectJointValues res.1, res.2⟩

/-! ### Scene families and concrete scenes used by the claims -/

/-- Parameters of a two-link scene: a root link with no joints plus one
child link whose single joint is rotational about `z`, limits `[-90, 90]`,
pivot at the (local) origin. -/
structure TwoLinkParams where
  rootId : String
  childId : String
  rootName : String
  childName : String
  rootGeometry : MeshGeometry
  childGeometry : MeshGeometry
  rootColor : String
  childColor : String
  rootOffset : Vec3
  childOffset : Vec3
  rootStatic : Vec3
  childStatic : Vec3
  jointId : String
  jointName : String
  jointValue : ℝ
  jointExternal : Bool
  rootNotes : Option String
  childNotes : Option String

def twoLinkJoint (P : TwoLinkParams) : JointDefinition :=
  ⟨P.jointId, MotionType.rotational, MotionAxis.z, (-90, 90), P.jointValue,
   P.jointName, P.jointExternal, ⟨0, 0, 0⟩⟩

def twoLinkRoot (P : TwoLinkParams) : LinkNode :=
  ⟨P.rootId, P.rootName, P.rootGeometry, P.rootColor, none, [P.childId],
   P.rootOffset, P.rootStatic, [], P.rootNotes⟩

def twoLinkChild (P : TwoLinkParams) : LinkNode :=
  ⟨P.childId, P.childName, P.childGeometry, P.childColor, some P.rootId, [],
   P.childOffset, P.childStatic, [twoLinkJoint P], P.childNotes⟩

/-- The scene of a two-link chain. -/
def twoLinkScene (P : TwoLinkParams) : SceneData :=
  ⟨P.rootId, [(P.rootId, twoLinkRoot P), (P.childId, twoLinkChild P)], none⟩

/-- World state of the two-link root (no joints: its world matrix is its
pre-joint matrix). -/
noncomputable def twoLinkRootState (P : TwoLinkParams) : NodeWorldState :=
  mkNodeState P.rootId
    (nodePreMatrix (P.rootId == P.rootId) (twoLinkRoot P) Aff.idAff) (twoLinkRoot P)

/-- Pre-joint matrix of the two-link child. -/
noncomputable def twoLinkChildPre (P : TwoLinkParams) : Aff :=
  nodePreMatrix (P.childId == P.rootId) (twoLinkChild P) (twoLinkRootState P).worldMatrix

/-- World state of the two-link child. -/
noncomputable def twoLinkChildState (P : TwoLinkParams) : NodeWorldState :=
  mkNodeState P.childId (twoLinkChildPre P) (twoLinkChild P)

/-- A concrete two-link chain with the joint at 0. -/
noncomputable def c1Params : TwoLinkParams :=
  { rootId := "root"
    childId := "child"
    rootName := "Base"
    childName := "Link"
    rootGeometry := MeshGeometry.box 0.5 0.2 0.5
    childGeometry := MeshGeometry.box 0.3 0.4 0.3
    rootColor := "#64748b"
    childColor := "#38bdf8"
    rootOffset := ⟨0, 0, 0⟩
    childOffset := ⟨0, 0, 0.3⟩
    rootStatic := ⟨0, 0, 0⟩
    childStatic := ⟨0, 0, 0⟩
    jointId := "joint-1"
    jointName := "joint-1"
    jointValue := 0
    jointExternal := false
    rootNotes := none
    childNotes := none }

/-- A root-only scene whose root carries one linear `z` joint extended by
150 mm. -/
noncomputable def c6Joint : JointDefinition :=
  ⟨"joint-1", MotionType.linear, MotionAxis.z, (0, 150), 150, "joint-1",
   false, ⟨0, 0, 0⟩⟩

noncomputable def c6Root : LinkNode :=
  ⟨"base", "Base", MeshGeometry.box 0.5 0.2 0.5, "#64748b", none, [],
   ⟨0, 0, 0⟩, ⟨0, 0, 0⟩, [c6Joint], none⟩

noncomputable def c6Scene : SceneData := ⟨"base", [("base", c6Root)], none⟩

/-- A root-only scene whose root carries two rotational joints: joint 0
about `x` at 90 degrees, joint 1 about `z`. -/
noncomputable def c7Joint0 : JointDefinition :=
  ⟨"joint-1", MotionType.rotational, MotionAxis.x, (-90, 90), 90, "joint-1",
   false, ⟨0, 0, 0⟩⟩

noncomputable def c7Joint1 : JointDefinition :=
  ⟨"joint-2", MotionType.rotational, MotionAxis.z, (-90, 90), 0, "joint-2",
   false, ⟨0, 0, 0⟩⟩

noncomputable def c7Root : LinkNode :=
  ⟨"base", "Base", MeshGeometry.box 0.5 0.2 0.5, "#64748b", none, [],
   ⟨0, 0, 0⟩, ⟨0, 0, 0⟩, [c7Joint0, c7Joint1], none⟩

noncomputable def c7Scene : SceneData := ⟨"base", [("base", c7Root)], none⟩

/-- A scene with no joints anywhere (for the short-circuit claim). -/
noncomputable def c3Root : LinkNode :=
  ⟨"base", "Base", MeshGeometry.box 0.5 0.2 0.5, "#64748b", none, [],
   ⟨0, 0, 0⟩, ⟨0, 0, 0⟩, [], none⟩

noncomputable def c3Scene : SceneData := ⟨"base", [("base", c3Root)], none⟩

end Kin

namespace Store

/-!
The scene-authoring store (`useSceneStore`), embedded over `ℚ` so that
everything is executable.  UI-only state (tcp status, fps, network log,
simulation clock) is omitted; the module-level `idCounter` becomes a state
field; `Math.random` color selection becomes an explicit argument.
-/

/-- `JointDefinition` of the store. -/
structure JointDefinition where
  id : String
  type : MotionType
  axis : MotionAxis
  limits : ℚ × ℚ
  currentValue : ℚ
  name : String
  externalControl : Bool
  pivot : ℚ × ℚ × ℚ
deriving DecidableEq

/-- The store's `MeshGeometry` union (no custom meshes). -/
inductive MeshGeometry where
  | box (width height depth : ℚ)
  | cylinder (radius height : ℚ)
  | sphere (radius : ℚ)
  | cone (radius height : ℚ)
  | capsule (radius length : ℚ)
deriving DecidableEq

structure GeometryBounds where
  width : ℚ
  depth : ℚ
  height : ℚ
  radial : ℚ
deriving DecidableEq

/-- The store's `getGeometryBounds` (its `default` fallback branch is
unreachable over the exhaustive union). -/
def getGeometryBounds : MeshGeometry → GeometryBounds
  | .box width height depth => ⟨width, depth, height, max width depth / 2⟩
  | .cylinder radius height => ⟨radius * 2, radius * 2, height, radius⟩
  | .sphere radius => ⟨radius * 2, radius * 2, radius * 2, radius⟩
  | .cone radius height => ⟨radius * 2, radius * 2, height, radius⟩
  | .capsule radius len => ⟨radius * 2, radius * 2, len + radius * 2, radius⟩

/-- `getDefaultJointPivot`: bottom of the bounding envelope. -/
def getDefaultJointPivot (geometry : MeshGeometry) : ℚ × ℚ × ℚ :=
  (0, 0, -(getGeometryBounds geometry).height / 2)

inductive MeshKind where
  | box
  | cylinder
  | sphere
  | cone
  | capsule
deriving DecidableEq

/-- `createDefaultGeometry` via the geometry factory. -/
def createDefaultGeometry : MeshKind → MeshGeometry
  | .box => .box 0.3 0.4 0.3
  | .cylinder => .cylinder 0.15 0.4
  | .sphere => .sphere 0.18
  | .cone => .cone 0.16 0.38
  | .capsule => .capsule 0.12 0.28

/-- `LinkNode` of the store. -/
structure LinkNode where
  id : String
  name : String
  geometry : MeshGeometry
  color : String
  parentId : Option String
  children : List String
  baseOffset : ℚ × ℚ × ℚ
  joints : List JointDefinition
  notes : Option String
deriving DecidableEq

structure PoseDefinition where
  id : String
  name : String
  values : List (String × ℚ)
  createdAt : ℚ
deriving DecidableEq

inductive NetworkSource where
  | tcp
  | ui
  | manual
  | simulation
  | playback
deriving DecidableEq

/-- The store state (scene-relevant part). -/
structure SceneState where
  nodes : List (String × LinkNode)
  rootId : String
  selectedId : Option String
  connectMode : Bool
  connectSourceId : Option String
  poses : List PoseDefinition
  idCounter : Nat
deriving DecidableEq

/-- `createId`: increment the module counter and build `prefix-N`. -/
def createId (pre : String) (counter : Nat) : String × Nat :=
  (pre ++ "-" ++ Nat.repr (counter + 1), counter + 1)

/-- Record lookup `state.nodes[id]`. -/
def lookupStoreNode (nodes : List (String × LinkNode)) (id : String) : Option LinkNode :=
  (nodes.find? (fun p => p.1 == id)).map (fun p => p.2)

/-- Record assignment `nodes[k] = n` (overwrite or append). -/
def recordSetNode (nodes : List (String × LinkNode)) (k : String) (n : LinkNode) :
    List (String × LinkNode) :=
  if nodes.any (fun p => p.1 == k) then
    nodes.map (fun p => if p.1 == k then (k, n) else p)
  else nodes ++ [(k, n)]

/-- Record assignment into a pose's value map. -/
def recordSet (m : List (String × ℚ)) (k : String) (v : ℚ) : List (String × ℚ) :=
  if m.any (fun p => p.1 == k) then m.map (fun p => if p.1 == k then (k, v) else p)
  else m ++ [(k, v)]

/-- Record lookup in a `name → value` map. -/
def lookupQ (m : List (String × ℚ)) (k : String) : Option ℚ :=
  (m.find? (fun p => p.1 == k)).map (fun p => p.2)

/-- The per-joint filter of `gatherJointNames`: skip the ignored joint id
(only when the ignore argument is JS-truthy, i.e. present and non-empty)
and skip JS-falsy (empty) names. -/
def keepName (ignoreJointId : Option String) (j : JointDefinition) : Option String :=
  match ignoreJointId with
  | some iid =>
      if iid ≠ "" ∧ j.id = iid then none
      else if j.name = "" then none else some j.name
  | none => if j.name = "" then none else some j.name

/-- `gatherJointNames` (as the list of retained names; the source's `Set`
only ever answers membership queries). -/
def gatherJointNames (nodes : List (String × LinkNode)) (ignoreJointId : Option String) :
    List String :=
  nodes.flatMap (fun p => p.2.joints.filterMap (keepName ignoreJointId))

/-- The candidate names `joint-1`, `joint-2`, ... -/
def candidateJointName (k : Nat) : String := "joint-" ++ Nat.repr k

/-- The `while used.has(candidate)` loop of `nextJointNameFromUsed`,
bounded by a fuel that dominates the number of used names. -/
def nextJointIndexFrom (used : List String) : Nat → Nat → Nat
  | 0, idx => idx
  | fuel + 1, idx =>
      if candidateJointName idx ∈ used then nextJointIndexFrom used fuel (idx + 1)
      else idx

/-- `nextJointNameFromUsed`: the first unused `joint-N`, `N ≥ 1`. -/
def nextJointNameFromUsed (used : List String) : String :=
  candidateJointName (nextJointIndexFrom used (used.length + 1) 1)

/-- `getNextJointName` (no extra names at any call site in the store). -/
def getNextJointName (nodes : List (String × LinkNode)) : String :=
  nextJointNameFromUsed (gatherJointNames nodes none)

/-- `getNextJointNameFor`. -/
def getNextJointNameFor (nodes : List (String × LinkNode)) (jointId : String) : String :=
  nextJointNameFromUsed (gatherJointNames nodes (some jointId))

/-- `sanitizeJointName`: empty proposals keep the current name; a proposal
already used by a *different* joint is rejected (`none`, the source's
`null`). -/
def sanitizeJointName (nodes : List (String × LinkNode)) (proposed : String)
    (jointId : String) (currentName : String) : Option String :=
  let trimmed := proposed.trim
  if trimmed = "" then some currentName
  else if trimmed ∈ gatherJointNames nodes (some jointId) then none
  else some trimmed

/-- A partial joint update (TS `Partial<JointDefinition>`). -/
structure JointPatch where
  id : Option String
  type : Option MotionType
  axis : Option MotionAxis
  limits : Option (ℚ × ℚ)
  currentValue : Option ℚ
  name : Option String
  externalControl : Option Bool
  pivot : Option (ℚ × ℚ × ℚ)
deriving DecidableEq

/-- Limits normalization on write: reorder so min ≤ max. -/
def normalizePair (l : ℚ × ℚ) : ℚ × ℚ := if l.1 ≤ l.2 then l else (l.2, l.1)

/-- Pose-library key rename performed when a joint is renamed. -/
def renamePoseValues (poses : List PoseDefinition) (oldName newName : String) :
    List PoseDefinition :=
  poses.map (fun pose =>
    match pose.values.find? (fun q => q.1 == oldName) with
    | none => pose
    | some entry =>
        { pose with
          values :=
            recordSet (pose.values.filter (fun q => !(q.1 == oldName))) newName entry.2 })

/-- `updateJoint`: find the joint by id on the node, resolve the proposed
name (keep / accept / regenerate on collision), normalize limits, clamp
the value, and write the updated joint back, renaming pose keys if
needed. -/
def updateJoint (state : SceneState) (nodeId jointId : String) (patch : JointPatch) :
    SceneState :=
  match lookupStoreNode state.nodes nodeId with
  | none => state
  | some node =>
      match node.joints.findIdx? (fun j => j.id == jointId) with
      | none => state
      | some index =>
          match node.joints[index]? with
          | none => state
          | some currentJoint =>
              let nextName :=
                match patch.name with
                | none => currentJoint.name
                | some proposed =>
                    match sanitizeJointName state.nodes proposed jointId currentJoint.name with
                    | none => getNextJointNameFor state.nodes jointId
                    | some s2 => s2
              let limits := patch.limits.getD currentJoint.limits
              let normalizedLimits := normalizePair limits
              let valueToClamp := patch.currentValue.getD currentJoint.currentValue
              let newValue := min (max valueToClamp normalizedLimits.1) normalizedLimits.2
              let nextJoint : JointDefinition :=
                { id := patch.id.getD currentJoint.id
                  type := patch.type.getD currentJoint.type
                  axis := patch.axis.getD currentJoint.axis
                  limits := normalizedLimits
                  currentValue := newValue
                  name := nextName
                  externalControl := patch.externalControl.getD currentJoint.externalControl
                  pivot := patch.pivot.getD currentJoint.pivot }
              let joints := Kin.modifyAt (fun _ => nextJoint) index node.joints
              let poses :=
                if nextName ≠ currentJoint.name then
                  renamePoseValues state.poses currentJoint.name nextName
                else state.poses
              { state with
                nodes := recordSetNode state.nodes nodeId { node with joints := joints }
                poses := poses }

/-- `addJoint`: append a default joint (fresh name) to a node. -/
def addJoint (state : SceneState) (nodeId : String) (type : MotionType) : SceneState :=
  match lookupStoreNode state.nodes nodeId with
  | none => state
  | some node =>
      let idRes := createId "joint" state.idCounter
      let pivot := getDefaultJointPivot node.geometry
      let limits : ℚ × ℚ := if type = MotionType.linear then (0, 150) else (-90, 90)
      let jointName := getNextJointName state.nodes
      let currentValue := if type = MotionType.linear then limits.1 else 0
      let nextJoint : JointDefinition :=
        ⟨idRes.1, type, MotionAxis.z, limits, currentValue, jointName, false, pivot⟩
      { state with
        idCounter := idRes.2
        nodes := recordSetNode state.nodes nodeId
          { node with joints := node.joints ++ [nextJoint] }
        selectedId := some nodeId
        poses := state.poses.map (fun pose =>
          { pose with values := recordSet pose.values jointName currentValue }) }

/-- Display names of new links. -/
def linkNameFor : MeshKind → String
  | .box => "Link Box"
  | .cylinder => "Link Cylinder"
  | .sphere => "Link Sphere"
  | .cone => "Link Cone"
  | .capsule => "Link Capsule"

/-- `addLink`: create a child of the selection (or root) with one default
rotational joint carrying a fresh name.  `color` stands for the random
palette pick. -/
def addLink (state : SceneState) (kind : MeshKind) (color : String) : SceneState :=
  let parentId := state.selectedId.getD state.rootId
  match lookupStoreNode state.nodes parentId with
  | none => state
  | some parent =>
      let geometry := createDefaultGeometry kind
      let jointIdRes := createId "joint" state.idCounter
      let newIdRes := createId "link" jointIdRes.2
      let parentHeight := (getGeometryBounds parent.geometry).height
      let offsetZ := parentHeight / 2 + (getGeometryBounds geometry).height / 2 + 0.05
      let pivot := getDefaultJointPivot geometry
      let jointName := getNextJointName state.nodes
      let initialJoint : JointDefinition :=
        ⟨jointIdRes.1, MotionType.rotational, MotionAxis.z, (-90, 90), 0, jointName,
         false, pivot⟩
      let newNode : LinkNode :=
        ⟨newIdRes.1, linkNameFor kind, geometry, color, some parentId, [],
         (0, 0, offsetZ), [initialJoint], none⟩
      let nodesWithNew := recordSetNode state.nodes newIdRes.1 newNode
      let nextNodes := recordSetNode nodesWithNew parentId
        { parent with children := parent.children ++ [newIdRes.1] }
      { state with
        nodes := nextNodes
        idCounter := newIdRes.2
        selectedId := some newIdRes.1
        connectMode := false
        connectSourceId := none
        poses := state.poses.map (fun pose =>
          { pose with values := recordSet pose.values jointName 0 }) }

/-- `applyInterpolatedJointValues`: clamp each addressed joint's value to
its limits, keeping the old value when the change is below `0.0001`. -/
def applyInterpolatedJointValues (state : SceneState) (values : List (String × ℚ)) :
    SceneState :=
  { state with
    nodes := state.nodes.map (fun p =>
      (p.1,
        { p.2 with
          joints := p.2.joints.map (fun joint =>
            match lookupQ values joint.name with
            | none => joint
            | some nextValue =>
                let clamped := min (max nextValue joint.limits.1) joint.limits.2
                if |clamped - joint.currentValue| > 0.0001 then
                  { joint with currentValue := clamped }
                else joint) })) }

/-- `applyRemoteJointValues`: as above, but a `tcp` source only drives
externally-controlled joints, and any nonzero change is applied. -/
def applyRemoteJointValues (state : SceneState) (values : List (String × ℚ))
    (source : NetworkSource) : SceneState :=
  { state with
    nodes := state.nodes.map (fun p =>
      (p.1,
        { p.2 with
          joints := p.2.joints.map (fun joint =>
            if source = NetworkSource.tcp ∧ joint.externalControl = false then joint
            else
              match lookupQ values joint.name with
              | none => joint
              | some nextValue =>
                  let clamped := min (max nextValue joint.limits.1) joint.limits.2
                  if clamped ≠ joint.currentValue then { joint with currentValue := clamped }
                  else joint) })) }

/-- A joint whose limits are ordered and whose value lies within them. -/
def JointOk (j : JointDefinition) : Prop :=
  j.limits.1 ≤ j.limits.2 ∧ j.limits.1 ≤ j.currentValue ∧ j.currentValue ≤ j.limits.2

/-- Every joint of every node is `JointOk`. -/
def StateOk (nodes : List (String × LinkNode)) : Prop :=
  ∀ p ∈ nodes, ∀ j ∈ p.2.joints, JointOk j

/-- Scene-wide joint-name uniqueness (empty names carry no key). -/
def NamesUnique (nodes : List (String × LinkNode)) : Prop :=
  (gatherJointNames nodes none).Nodup

/-- Record keys are unique (JS object semantics). -/
def KeysNodup (nodes : List (String × LinkNode)) : Prop :=
  (nodes.map Prod.fst).Nodup

/-- All joint ids across the scene. -/
def allJointIds (nodes : List (String × LinkNode)) : List String :=
  nodes.flatMap (fun p => p.2.joints.map (fun j => j.id))

/-- A tiny concrete store state: one root with one joint named `joint-1`,
one pose remembering it. -/
def sampleJoint : JointDefinition :=
  ⟨"joint-1", MotionType.rotational, MotionAxis.z, (-90, 90), 0, "joint-1", false,
   (0, 0, -(1 : ℚ)/10)⟩

def sampleRoot : LinkNode :=
  ⟨"link-2", "Base", MeshGeometry.box 0.5 0.2 0.5, "#64748b", none, [], (0, 0, 0),
   [sampleJoint], none⟩

def sampleState : SceneState :=
  ⟨[("link-2", sampleRoot)], "link-2", some "link-2", false, none,
   [⟨"pose-3", "Pose 1", [("joint-1", 10)], 0⟩], 3⟩

/-- Little-endian base-10 digits of a natural number (auxiliary, used to
reason about the decimal renderings inside generated names). -/
def natDigitsRev (n : Nat) : List Nat :=
  if h : n < 10 then [n]
  else n % 10 :: natDigitsRev (n / 10)
decreasing_by
  exact Nat.div_lt_self (by omega) (by omega)

/-- Value of a little-endian digit list. -/
def ofDigitsRev : List Nat → Nat
  | [] => 0
  | d :: ds => d + 10 * ofDigitsRev ds

end Store

/-! ## Lemmas and theorems -/

namespace Kin.Vec3

@[simp] theorem add_def (a b : Vec3) :
    a + b = ⟨a.x + b.x, a.y + b.y, a.z + b.z⟩ := rfl

@[simp] theorem neg_def (a : Vec3) : -a = ⟨-a.x, -a.y, -a.z⟩ := rfl

@[simp] theorem sub_def (a b : Vec3) :
    a - b = ⟨a.x - b.x, a.y - b.y, a.z - b.z⟩ := rfl

@[simp] theorem smul_def (r : ℝ) (a : Vec3) :
    r • a = ⟨r * a.x, r * a.y, r * a.z⟩ := rfl

@[simp] theorem zero_x : (0 : Vec3).x = 0 := rfl
@[simp] theorem zero_y : (0 : Vec3).y = 0 := rfl
@[simp] theorem zero_z : (0 : Vec3).z = 0 := rfl

@[simp] theorem add_zero_vec (a : Vec3) : a + 0 = a := by
  ext <;> simp

@[simp] theorem zero_add_vec (a : Vec3) : (0 : Vec3) + a = a := by
  ext <;> simp

@[simp] theorem dot_zero_left (b : Vec3) : dot 0 b = 0 := by
  simp [dot]

@[simp] theorem length_zero : length (0 : Vec3) = 0 := by
  simp [length, dot]

@[simp] theorem normalize_zero : normalize (0 : Vec3) = 0 := by
  simp [normalize]

end Kin.Vec3

namespace Kin.Mat3

@[simp] theorem mulVec_zero (m : Mat3) : m.mulVec 0 = 0 := by
  ext <;> simp [mulVec]

@[simp] theorem idMat_mulVec (v : Vec3) : idMat.mulVec v = v := by
  simp [mulVec, idMat]

@[simp] theorem idMat_mul (m : Mat3) : idMat.mul m = m := by
  simp [mul, idMat]

@[simp] theorem mul_idMat (m : Mat3) : m.mul idMat = m := by
  simp [mul, idMat]

theorem mul_mulVec (a b : Mat3) (v : Vec3) :
    (a.mul b).mulVec v = a.mulVec (b.mulVec v) := by
  ext <;> simp [mul, mulVec] <;> ring

theorem mulVec_add (m : Mat3) (v w : Vec3) :
    m.mulVec (v + w) = m.mulVec v + m.mulVec w := by
  ext <;> simp [mulVec] <;> ring

theorem mulVec_neg (m : Mat3) (v : Vec3) : m.mulVec (-v) = -(m.mulVec v) := by
  ext <;> simp [mulVec] <;> ring

end Kin.Mat3

namespace Kin.Aff

@[simp] theorem comp_lin (a b : Aff) : (a.comp b).lin = a.lin.mul b.lin := rfl

@[simp] theorem comp_tr (a b : Aff) :
    (a.comp b).tr = a.lin.mulVec b.tr + a.tr := rfl

@[simp] theorem apply_zero (a : Aff) : a.apply 0 = a.tr := by
  ext <;> simp [apply, Mat3.mulVec]

theorem apply_comp (a b : Aff) (v : Vec3) :
    (a.comp b).apply v = a.apply (b.apply v) := by
  ext <;> simp [apply, comp, Mat3.mul, Mat3.mulVec] <;> ring

@[simp] theorem idAff_comp (a : Aff) : idAff.comp a = a := by
  ext <;> simp [idAff, comp, Mat3.mul, Mat3.mulVec, Mat3.idMat]

@[simp] theorem comp_translation_tr (a : Aff) (v : Vec3) :
    (a.comp (translation v)).tr = a.lin.mulVec v + a.tr := rfl

@[simp] theorem comp_translation_lin (a : Aff) (v : Vec3) :
    (a.comp (translation v)).lin = a.lin := by
  ext <;> simp [translation, comp, Mat3.mul, Mat3.idMat]

@[simp] theorem comp_rot_tr (a : Aff) (m : Mat3) : (a.comp (rot m)).tr = a.tr := by
  ext <;> simp [rot, comp, Mat3.mulVec]

@[simp] theorem rot_tr (m : Mat3) : (rot m).tr = 0 := rfl

@[simp] theorem rot_lin (m : Mat3) : (rot m).lin = m := rfl

@[simp] theorem translation_tr (v : Vec3) : (translation v).tr = v := rfl

@[simp] theorem translation_lin (v : Vec3) : (translation v).lin = Mat3.idMat := rfl

@[simp] theorem idAff_lin : idAff.lin = Mat3.idMat := rfl

@[simp] theorem idAff_tr : idAff.tr = 0 := rfl

/-- The translation sandwich `M · T(p) · T(w) · T(-p)` collapses to `M · T(w)`. -/
theorem translation_sandwich (M : Aff) (p w : Vec3) :
    ((M.comp (translation p)).comp (translation w)).comp (translation (-p)) =
      M.comp (translation w) := by
  ext <;> simp [comp, translation, Mat3.mul, Mat3.idMat, Mat3.mulVec] <;> ring

end Kin.Aff

namespace Kin

@[simp] theorem idAff_apply (v : Vec3) : Aff.idAff.apply v = v := by
  ext <;> simp [Aff.idAff, Aff.apply, Mat3.mulVec, Mat3.idMat]

/-- C8: `getGeometryBounds` maps each geometry kind to its documented
envelope — box passes dimensions through with radial `max(width, depth)/2`;
cylinder and cone give `2·radius` square footprints with pass-through
height; a sphere is `2·radius` in all directions; a capsule adds
`2·radius` to its length; custom meshes scale their precomputed bounds;
and an unknown kind yields the fixed `0.3 × 0.3 × 0.3` (radial `0.15`)
fallback.  The function is total: it never fails. -/
theorem c8_geometry_bounds :
    (∀ w h d : ℝ, getGeometryBounds (MeshGeometry.box w h d) =
        ⟨w, d, h, max w d / 2⟩) ∧
    (∀ r h : ℝ, getGeometryBounds (MeshGeometry.cylinder r h) =
        ⟨2 * r, 2 * r, h, r⟩) ∧
    (∀ r h : ℝ, getGeometryBounds (MeshGeometry.cone r h) =
        ⟨2 * r, 2 * r, h, r⟩) ∧
    (∀ r : ℝ, getGeometryBounds (MeshGeometry.sphere r) =
        ⟨2 * r, 2 * r, 2 * r, r⟩) ∧
    (∀ r len : ℝ, getGeometryBounds (MeshGeometry.capsule r len) =
        ⟨2 * r, 2 * r, len + 2 * r, r⟩) ∧
    (∀ (sn dat : String) (sc us : ℝ) (b : GeometryBounds) (oo : Vec3),
        getGeometryBounds (MeshGeometry.custom sn dat sc us b oo) =
          ⟨b.width * sc, b.depth * sc, b.height * sc, b.radial * sc⟩) ∧
    getGeometryBounds MeshGeometry.unknownKind = ⟨0.3, 0.3, 0.3, 0.15⟩ := by
  refine ⟨?_, ?_, ?_, ?_, ?_, ?_, ?_⟩
  · intro w h d; ext <;> simp [getGeometryBounds] <;> ring
  · intro r h; ext <;> simp [getGeometryBounds] <;> ring
  · intro r h; ext <;> simp [getGeometryBounds] <;> ring
  · intro r; ext <;> simp [getGeometryBounds] <;> ring
  · intro r len; ext <;> simp [getGeometryBounds] <;> ring
  · intro sn dat sc us b oo; ext <;> simp [getGeometryBounds]
  · rfl

/-- The translation column of the pre-joint matrix: the parent transform
applied to the base translation (the optional static rotation contributes
no translation). -/
theorem nodePreMatrix_tr (isRoot : Bool) (node : LinkNode) (parentM : Aff) :
    (nodePreMatrix isRoot node parentM).tr =
      parentM.apply (computeBaseTranslation node isRoot) := by
  simp only [nodePreMatrix]
  split_ifs <;> ext <;> simp [Aff.apply] <;> ring

/-- C6 (amended): the root's base translation raises the vertical
component by half the bounding height and a non-root base translation is
the raw base offset; consequently the world origin of a *jointless* root
with baseOffset `(x, y, 0)` has vertical component `h/2`.  (The original
claim omitted the jointless qualification; a root joint can move the
origin further, see the counterexample.) -/
theorem c6_amended :
    (∀ node : LinkNode, computeBaseTranslation node true =
        ⟨node.baseOffset.x, node.baseOffset.y,
         node.baseOffset.z + (getGeometryBounds node.geometry).height / 2⟩) ∧
    (∀ node : LinkNode, computeBaseTranslation node false = node.baseOffset) ∧
    (∀ (s : SceneData) (node : LinkNode),
        lookupNode s s.rootId = some node → node.joints = [] →
        node.baseOffset.z = 0 →
        positionAt (computeKinematics s) s.rootId =
          some ⟨node.baseOffset.x, node.baseOffset.y,
                (getGeometryBounds node.geometry).height / 2⟩) := by
  refine ⟨fun node => by simp [computeBaseTranslation], ?_, ?_⟩
  · intro node
    simp [computeBaseTranslation]
  · intro s node hlook hnj hz
    obtain ⟨hd, tl, hn⟩ : ∃ hd tl, s.nodes = hd :: tl := by
      cases hnodes : s.nodes with
      | nil => simp [lookupNode, hnodes, List.find?] at hlook
      | cons hd tl => exact ⟨hd, tl, rfl⟩
    have hlen : s.nodes.length = tl.length + 1 := by rw [hn]; rfl
    simp only [computeKinematics, hlen, traverse, hlook]
    simp only [positionAt, stateFor, List.find?, beq_self_eq_true, Option.map_some]
    simp [mkNodeState, hnj, jointStatesAux, nodePreMatrix_tr, computeBaseTranslation, hz]

/-- C6 counterexample: a root whose single joint is linear along `z`,
extended 150 mm, with geometry height `0.2` and baseOffset `(0,0,0)`.  Its
reported world origin has vertical component `0.25`, not `h/2 = 0.1` — the
claim's "the reported world origin has vertical component h/2" fails for
roots that carry joints. -/
theorem c6_counterexample :
    positionAt (computeKinematics c6Scene) "base" = some ⟨0, 0, 1 / 4⟩ ∧
    (getGeometryBounds c6Root.geometry).height / 2 = 1 / 10 ∧
    ((1 : ℝ) / 4 ≠ 1 / 10) := by
  refine ⟨?_, by norm_num [c6Root, getGeometryBounds], by norm_num⟩
  have hnj : (1e-6 < |(0 : ℝ)| ∨ 1e-6 < |(0 : ℝ)| ∨ 1e-6 < |(0 : ℝ)|) = False := by
    norm_num
  simp only [computeKinematics, c6Scene, List.length, traverse, lookupNode, List.find?,
    beq_self_eq_true, cond_true, Option.map_some]
  norm_num [c6Root, c6Joint, mkNodeState, jointStatesAux, applyJointTransform,
    nodePreMatrix, computeBaseTranslation, getGeometryBounds, positionAt, stateFor,
    List.find?, Aff.apply, Aff.comp, Aff.translation, Aff.idAff, Mat3.mul, Mat3.mulVec,
    Mat3.idMat, MM_TO_M, axisToVector]
  simp

/-- Witness for the amended C6 claim at a concrete jointless root scene. -/
theorem c6_amended_witness :
    positionAt (computeKinematics c3Scene) c3Scene.rootId =
      some ⟨c3Root.baseOffset.x, c3Root.baseOffset.y,
            (getGeometryBounds c3Root.geometry).height / 2⟩ :=
  c6_amended.2.2 c3Scene c3Root
    (by simp [lookupNode, c3Scene, List.find?])
    (by simp [c3Root])
    (by simp [c3Root])

/-- The states recorded by the per-joint fold: entry `i` is joint `i`
taken against the matrix advanced through joints `0..i-1` (base, static
rotation, and the earlier joints of the same node). -/
theorem jointStatesAux_getElem (nodeId : String) :
    ∀ (joints : List JointDefinition) (idx : Nat) (M : Aff) (i : Nat)
      (j : JointDefinition),
      joints[i]? = some j →
      ((jointStatesAux nodeId idx M joints).1)[i]? =
        some ⟨nodeId, idx + i, j,
              (applyJoints M (joints.take i)).apply j.pivot,
              Vec3.normalize
                ((applyJoints M (joints.take i)).lin.mulVec (axisToVector j.axis))⟩ := by
  intro joints
  induction joints with
  | nil => intro idx M i j h; simp at h
  | cons j0 rest ih =>
      intro idx M i j h
      cases i with
      | zero =>
          simp at h
          subst h
          simp [jointStatesAux, applyJoints]
      | succ i =>
          simp at h
          have := ih (idx + 1) (applyJointTransform M j0) i j h
          simp [jointStatesAux, applyJoints] at this ⊢
          rw [this]
          simp [Nat.add_assoc, Nat.add_comm 1 i]

/-- Every entry of a forward pass is a `mkNodeState` of the node found at
its id, taken against the pre-joint matrix for some parent transform. -/
theorem traverse_mem_mkNodeState (s : SceneData) :
    ∀ (fuel : Nat) (id0 : String) (M : Aff) (p : String × NodeWorldState),
      p ∈ traverse s fuel id0 M →
      ∃ (node : LinkNode) (parentM : Aff),
        lookupNode s p.1 = some node ∧
        p.2 = mkNodeState p.1 (nodePreMatrix (p.1 == s.rootId) node parentM) node := by
  intro fuel
  induction fuel with
  | zero => intro id0 M p h; simp [traverse] at h
  | succ fuel ih =>
      intro id0 M p h
      rw [traverse] at h
      cases hlook : lookupNode s id0 with
      | none => rw [hlook] at h; simp at h
      | some node =>
          rw [hlook] at h
          simp only [List.mem_cons] at h
          rcases h with h | h
          · subst h
            exact ⟨node, M, hlook, rfl⟩
          · rw [List.mem_flatMap] at h
            obtain ⟨c, _, hc⟩ := h
            exact ih c _ p hc

/-- C7 (amended): the world motion axis reported for joint `i` is the
joint's local axis rotated by the rotation component of the transform
accumulated up to and including the contributions of the node's joints
`0..i-1` (after the base translation and static rotation), normalized —
not the pre-joint transform alone, so for `i ≥ 1` it does depend on the
current values of the earlier joints of the same node.  Every node state
produced by `computeKinematics` arises this way. -/
theorem c7_amended :
    (∀ (nodeId : String) (M0 : Aff) (node : LinkNode) (i : Nat)
        (j : JointDefinition),
        node.joints[i]? = some j →
        ((mkNodeState nodeId M0 node).joints)[i]? =
          some ⟨nodeId, i, j,
                (applyJoints M0 (node.joints.take i)).apply j.pivot,
                Vec3.normalize
                  ((applyJoints M0 (node.joints.take i)).lin.mulVec
                    (axisToVector j.axis))⟩) ∧
    (∀ (s : SceneData) (p : String × NodeWorldState),
        p ∈ (computeKinematics s).nodes →
        ∃ (node : LinkNode) (parentM : Aff),
          lookupNode s p.1 = some node ∧
          p.2 = mkNodeState p.1 (nodePreMatrix (p.1 == s.rootId) node parentM) node) := by
  constructor
  · intro nodeId M0 node i j h
    have := jointStatesAux_getElem nodeId node.joints 0 M0 i j h
    simpa [mkNodeState] using this
  · intro s p h
    exact traverse_mem_mkNodeState s s.nodes.length s.rootId Aff.idAff p h

/-- Witness for the amended C7 claim: the second joint of the two-joint
root, with joint 0 (about `x`) at 90 degrees. -/
theorem c7_amended_witness :
    ((mkNodeState "base" Aff.idAff c7Root).joints)[1]? =
      some ⟨"base", 1, c7Joint1,
            (applyJoints Aff.idAff (c7Root.joints.take 1)).apply c7Joint1.pivot,
            Vec3.normalize
              ((applyJoints Aff.idAff (c7Root.joints.take 1)).lin.mulVec
                (axisToVector c7Joint1.axis))⟩ :=
  c7_amended.1 "base" Aff.idAff c7Root 1 c7Joint1 (by simp [c7Root])

/-- C7 counterexample: in the two-joint root scene (joint 0 rotational
about `x` at 90 degrees, joint 1 with local axis `z`), `computeKinematics`
reports joint 1's world axis as `(0, -1, 0)`, while the local axis rotated
by the rotation component accumulated only up to and including the static
rotation is `(0, 0, 1)` — so the claimed formula (and the claimed
independence from earlier joints' values) fails. -/
theorem c7_counterexample :
    axisAt (computeKinematics c7Scene) "base" 1 = some ⟨0, -1, 0⟩ ∧
    Vec3.normalize
        ((nodePreMatrix (("base" : String) == c7Scene.rootId) c7Root Aff.idAff).lin.mulVec
          (axisToVector c7Joint1.axis)) = ⟨0, 0, 1⟩ ∧
    (⟨0, -1, 0⟩ : Vec3) ≠ ⟨0, 0, 1⟩ := by
  have hpi2 : (90 : ℝ) * DEG_TO_RAD = Real.pi / 2 := by
    rw [DEG_TO_RAD]; ring
  have hnorm1 : ∀ v : Vec3, Vec3.dot v v = 1 → Vec3.normalize v = v := by
    intro v hv
    have hl : Vec3.length v = 1 := by rw [Vec3.length, hv, Real.sqrt_one]
    rw [Vec3.normalize, hl]
    simp
  refine ⟨?_, ?_, by simp⟩
  · simp only [computeKinematics, c7Scene, List.length, traverse, lookupNode, List.find?,
      beq_self_eq_true, cond_true, Option.map_some]
    simp only [axisAt, stateFor, List.find?, beq_self_eq_true, cond_true, Option.map_some]
    simp only [c7Root, mkNodeState, jointStatesAux, applyJointTransform, c7Joint0, c7Joint1]
    norm_num [nodePreMatrix, computeBaseTranslation, Aff.apply, Aff.comp, Aff.translation,
      Aff.idAff, Aff.rot, Mat3.mul, Mat3.mulVec, Mat3.idMat, axisToVector, hpi2,
      Mat3.rotX, getGeometryBounds]
    exact hnorm1 _ (by norm_num [Vec3.dot])
  · have hlin : (nodePreMatrix (("base" : String) == c7Scene.rootId) c7Root Aff.idAff).lin =
        Mat3.idMat := by
      norm_num [nodePreMatrix, c7Scene, c7Root, computeBaseTranslation, Aff.comp,
        Aff.translation, Aff.idAff, Mat3.mul, Mat3.idMat, getGeometryBounds]
    rw [hlin]
    have hv : Mat3.idMat.mulVec (axisToVector c7Joint1.axis) = ⟨0, 0, 1⟩ := by
      simp [axisToVector, c7Joint1]
    rw [hv]
    exact hnorm1 _ (by norm_num [Vec3.dot])

theorem modifyAt_length {α : Type} (f : α → α) :
    ∀ (i : Nat) (l : List α), (modifyAt f i l).length = l.length := by
  intro i l
  induction l generalizing i with
  | nil => cases i <;> rfl
  | cons a rest ih => cases i with
      | zero => rfl
      | succ i => simpa [modifyAt] using ih i

theorem modifyAt_take {α : Type} (f : α → α) :
    ∀ (i : Nat) (l : List α), (modifyAt f i l).take i = l.take i := by
  intro i l
  induction l generalizing i with
  | nil => cases i <;> rfl
  | cons a rest ih => cases i with
      | zero => rfl
      | succ i => simpa [modifyAt] using ih i

theorem modifyAt_getElem? {α : Type} (f : α → α) :
    ∀ (i : Nat) (l : List α), (modifyAt f i l)[i]? = l[i]?.map f := by
  intro i l
  induction l generalizing i with
  | nil => cases i <;> simp [modifyAt]
  | cons a rest ih => cases i with
      | zero => simp [modifyAt]
      | succ i => simpa [modifyAt] using ih i

theorem jointStatesAux_fst_length (nodeId : String) :
    ∀ (js : List JointDefinition) (idx : Nat) (M : Aff),
      ((jointStatesAux nodeId idx M js).1).length = js.length := by
  intro js
  induction js with
  | nil => intro idx M; rfl
  | cons j rest ih => intro idx M; simpa [jointStatesAux] using ih (idx + 1) _

/-- Lookup through a single-key entry rewrite of an association list. -/
theorem find?_entry_map (n : String) (f : LinkNode → LinkNode) (id : String) :
    ∀ nodes : List (String × LinkNode),
      ((nodes.map (fun p => if p.1 = n then (p.1, f p.2) else p)).find?
          (fun p => p.1 == id)).map (fun p => p.2) =
        if id = n then
          ((nodes.find? (fun p => p.1 == id)).map (fun p => p.2)).map f
        else (nodes.find? (fun p => p.1 == id)).map (fun p => p.2) := by
  intro nodes
  induction nodes with
  | nil => by_cases hid : id = n <;> simp [hid]
  | cons p rest ih =>
      rw [List.map_cons]
      by_cases hpn : p.1 = n
      · rw [if_pos hpn]
        by_cases hpid : p.1 = id
        · have hidn : id = n := hpid ▸ hpn
          rw [List.find?_cons_of_pos _ (by simpa using hpid),
            List.find?_cons_of_pos _ (by simpa using hpid), if_pos hidn]
          simp
        · rw [List.find?_cons_of_neg _ (by simpa using hpid),
            List.find?_cons_of_neg _ (by simpa using hpid)]
          exact ih
      · rw [if_neg hpn]
        by_cases hpid : p.1 = id
        · have hidn : id ≠ n := fun h => hpn (hpid.trans h)
          rw [List.find?_cons_of_pos _ (by simpa using hpid),
            List.find?_cons_of_pos _ (by simpa using hpid), if_neg hidn]
        · rw [List.find?_cons_of_neg _ (by simpa using hpid),
            List.find?_cons_of_neg _ (by simpa using hpid)]
          exact ih

/-- Lookup through a single-key node rewrite of the record. -/
theorem lookupNode_mapNode (s : SceneData) (n : String) (f : LinkNode → LinkNode)
    (id : String) :
    lookupNode
        { s with nodes := s.nodes.map (fun p => if p.1 = n then (p.1, f p.2) else p) } id =
      if id = n then (lookupNode s id).map f else lookupNode s id :=
  find?_entry_map n f id s.nodes

theorem setJointValue_rootId (s : SceneData) (n : String) (i : Nat) (v : ℝ) :
    (setJointValue s n i v).rootId = s.rootId := rfl

theorem setJointValue_nodes_length (s : SceneData) (n : String) (i : Nat) (v : ℝ) :
    (setJointValue s n i v).nodes.length = s.nodes.length := by
  simp [setJointValue]

theorem lookupNode_setJointValue (s : SceneData) (n : String) (i : Nat) (v : ℝ)
    (id : String) :
    lookupNode (setJointValue s n i v) id =
      if id = n then
        (lookupNode s id).map (fun node =>
          { node with
            joints := modifyAt (fun j => { j with currentValue := v }) i node.joints })
      else lookupNode s id :=
  lookupNode_mapNode s n
    (fun node =>
      { node with
        joints := modifyAt (fun j => { j with currentValue := v }) i node.joints })
    id

/-- Unfolding of one traversal step at a present node. -/
theorem traverse_cons_of_lookup (s : SceneData) (fuel : Nat) (id : String) (M : Aff)
    (node : LinkNode) (h : lookupNode s id = some node) :
    traverse s (fuel + 1) id M =
      (id, mkNodeState id (nodePreMatrix (id == s.rootId) node M) node) ::
        node.children.flatMap (fun c =>
          traverse s fuel c
            (mkNodeState id (nodePreMatrix (id == s.rootId) node M) node).worldMatrix) := by
  rw [traverse, h]

/-- Unfolding of one traversal step at a missing node. -/
theorem traverse_none_of_lookup (s : SceneData) (fuel : Nat) (id : String) (M : Aff)
    (h : lookupNode s id = none) : traverse s (fuel + 1) id M = [] := by
  rw [traverse, h]

/-- Traversal keys depend only on the children structure, not on matrices
or joint data. -/
theorem traverse_keys_congr (s s' : SceneData)
    (h : ∀ id, (lookupNode s' id).map (fun nd => nd.children) =
        (lookupNode s id).map (fun nd => nd.children)) :
    ∀ (fuel : Nat) (id : String) (M M' : Aff),
      (traverse s' fuel id M').map Prod.fst = (traverse s fuel id M).map Prod.fst := by
  intro fuel
  induction fuel with
  | zero => intro id M M'; rfl
  | succ fuel ih =>
      intro id M M'
      rw [traverse, traverse]
      have hch := h id
      cases hlook : lookupNode s id with
      | none =>
          rw [hlook] at hch
          cases hl : lookupNode s' id with
          | none => rfl
          | some nd => rw [hl] at hch; simp at hch
      | some node =>
          rw [hlook] at hch
          cases hl : lookupNode s' id with
          | none => rw [hl] at hch; simp at hch
          | some node' =>
              rw [hl] at hch
              simp only [Option.map_some', Option.some_inj] at hch
              simp only [List.map_cons, List.cons.injEq]
              refine ⟨trivial, ?_⟩
              rw [List.map_flatMap, List.map_flatMap, hch]
              congr 1
              funext c
              exact ih c _ _

theorem mem_keys_of_find?_isSome {α : Type} (n : String) (l : List (String × α)) :
    (l.find? (fun p => p.1 == n)).isSome ↔ n ∈ l.map Prod.fst := by
  rw [List.find?_isSome]
  constructor
  · rintro ⟨x, hx, hpx⟩
    exact List.mem_map.mpr ⟨x, hx, by simpa using hpx⟩
  · intro hmem
    obtain ⟨x, hx, hfst⟩ := List.mem_map.mp hmem
    exact ⟨x, hx, by simp [hfst]⟩

theorem pivotInList_cons_eq (k : String) (st : NodeWorldState)
    (l : List (String × NodeWorldState)) (i : Nat) :
    pivotInList ((k, st) :: l) k i = (st.joints[i]?).map (fun js => js.pivot) := by
  simp [pivotInList, List.find?]

theorem pivotInList_cons_ne (k n : String) (st : NodeWorldState)
    (l : List (String × NodeWorldState)) (hne : k ≠ n) {i : Nat} :
    pivotInList ((k, st) :: l) n i = pivotInList l n i := by
  have hbeq : (k == n) = false := by simpa using hne
  simp [pivotInList, List.find?, hbeq]

/-- Two concatenations agree on a pivot query when their left parts share
keys and both parts agree on the query. -/
theorem pivotInList_append_congr (n : String) (i : Nat)
    (l₁ l₂ l₁' l₂' : List (String × NodeWorldState))
    (hk : l₁'.map Prod.fst = l₁.map Prod.fst)
    (h₁ : pivotInList l₁' n i = pivotInList l₁ n i)
    (h₂ : pivotInList l₂' n i = pivotInList l₂ n i) :
    pivotInList (l₁' ++ l₂') n i = pivotInList (l₁ ++ l₂) n i := by
  unfold pivotInList at h₁ h₂ ⊢
  rw [List.find?_append, List.find?_append]
  cases hf : l₁'.find? (fun p => p.1 == n) with
  | some p =>
      have hsome : (l₁.find? (fun p => p.1 == n)).isSome := by
        rw [mem_keys_of_find?_isSome, ← hk, ← mem_keys_of_find?_isSome, hf]
        rfl
      obtain ⟨q, hq⟩ := Option.isSome_iff_exists.mp hsome
      simp only [hf, hq] at h₁
      simp only [hf, hq, Option.or_some]
      exact h₁
  | none =>
      have hnone : l₁.find? (fun p => p.1 == n) = none := by
        have h1 : ¬ (l₁.find? (fun p => p.1 == n)).isSome := by
          rw [mem_keys_of_find?_isSome, ← hk, ← mem_keys_of_find?_isSome, hf]
          simp
        exact Option.not_isSome_iff_eq_none.mp h1
      simp [hf, hnone, h₂]

theorem pivotInList_flatMap_congr (n : String) (i : Nat) (cs : List String)
    (f g : String → List (String × NodeWorldState))
    (hk : ∀ c, (f c).map Prod.fst = (g c).map Prod.fst)
    (hp : ∀ c, pivotInList (f c) n i = pivotInList (g c) n i) :
    pivotInList (cs.flatMap f) n i = pivotInList (cs.flatMap g) n i := by
  induction cs with
  | nil => rfl
  | cons c rest ih =>
      rw [List.flatMap_cons, List.flatMap_cons]
      exact pivotInList_append_congr n i (g c) (rest.flatMap g) (f c) (rest.flatMap f)
        (hk c) (hp c) ih

/-- Rewriting joint `i` of a node leaves the reported pivot of joint `i`
unchanged, provided the rewrite preserves the pivot field and everything
before index `i` (here: a pure `currentValue` write). -/
theorem mkNodeState_setValue_pivot (nid : String) (M0' M0 : Aff) (hM : M0' = M0)
    (node : LinkNode) (i : Nat) (v : ℝ) :
    (((mkNodeState nid M0'
        { node with
          joints := modifyAt (fun j => { j with currentValue := v }) i node.joints }).joints)[i]?).map
        (fun js => js.pivot) =
      (((mkNodeState nid M0 node).joints)[i]?).map (fun js => js.pivot) := by
  subst hM
  cases hj : node.joints[i]? with
  | none =>
      have hlen : node.joints.length ≤ i := by
        simpa using List.getElem?_eq_none_iff.mp hj
      have h1 : ((mkNodeState nid M0' node).joints)[i]? = none := by
        apply List.getElem?_eq_none
        simpa [mkNodeState, jointStatesAux_fst_length] using hlen
      have h2 : ((mkNodeState nid M0'
          { node with
            joints := modifyAt (fun j => { j with currentValue := v }) i node.joints }).joints)[i]? = none := by
        apply List.getElem?_eq_none
        simpa [mkNodeState, jointStatesAux_fst_length, modifyAt_length] using hlen
      rw [h1, h2]
  | some j =>
      have hj' : (modifyAt (fun j => { j with currentValue := v }) i node.joints)[i]? =
          some { j with currentValue := v } := by
        rw [modifyAt_getElem?, hj]
        rfl
      have e1 := jointStatesAux_getElem nid node.joints 0 M0' i j hj
      have e2 := jointStatesAux_getElem nid
        (modifyAt (fun j => { j with currentValue := v }) i node.joints) 0 M0' i
        { j with currentValue := v } hj'
      rw [modifyAt_take] at e2
      simp only [mkNodeState]
      rw [e1, e2]
      simp

/-- Changing the `currentValue` of joint `i` of node `n` does not change
the reported world pivot of that joint, anywhere in the traversal. -/
theorem traverse_pivot_setValue (s : SceneData) (n : String) (i : Nat) (v : ℝ) :
    ∀ (fuel : Nat) (id : String) (M : Aff),
      pivotInList (traverse (setJointValue s n i v) fuel id M) n i =
        pivotInList (traverse s fuel id M) n i := by
  have hchildren : ∀ id, (lookupNode (setJointValue s n i v) id).map (fun nd => nd.children) =
      (lookupNode s id).map (fun nd => nd.children) := by
    intro id
    rw [lookupNode_setJointValue]
    by_cases hid : id = n
    · rw [if_pos hid, Option.map_map]
      rfl
    · rw [if_neg hid]
  intro fuel
  induction fuel with
  | zero => intro id M; rfl
  | succ fuel ih =>
      intro id M
      cases hlook : lookupNode s id with
      | none =>
          cases hlook2 : lookupNode (setJointValue s n i v) id with
          | none =>
              rw [traverse_none_of_lookup _ _ _ _ hlook,
                traverse_none_of_lookup _ _ _ _ hlook2]
          | some nd =>
              have hrel := lookupNode_setJointValue s n i v id
              rw [hlook, hlook2] at hrel
              by_cases hid : id = n <;> simp [hid] at hrel
      | some node =>
          cases hlook2 : lookupNode (setJointValue s n i v) id with
          | none =>
              have hrel := lookupNode_setJointValue s n i v id
              rw [hlook, hlook2] at hrel
              by_cases hid : id = n <;> simp [hid] at hrel
          | some node2 =>
              have hrel := lookupNode_setJointValue s n i v id
              rw [hlook, hlook2] at hrel
              rw [traverse_cons_of_lookup _ _ _ _ _ hlook2,
                traverse_cons_of_lookup _ _ _ _ _ hlook]
              by_cases hid : id = n
              · rw [if_pos hid, Option.map_some', Option.some_inj] at hrel
                subst hrel
                subst hid
                rw [setJointValue_rootId]
                rw [pivotInList_cons_eq, pivotInList_cons_eq]
                exact mkNodeState_setValue_pivot id _ _ rfl node i v
              · rw [if_neg hid, Option.some_inj] at hrel
                subst hrel
                rw [setJointValue_rootId]
                rw [pivotInList_cons_ne _ _ _ _ hid, pivotInList_cons_ne _ _ _ _ hid]
                refine pivotInList_flatMap_congr n i node2.children _ _ ?_ ?_
                · intro c
                  exact traverse_keys_congr s (setJointValue s n i v) hchildren fuel c _ _
                · intro c
                  exact ih c _

theorem pivotAt_eq_pivotInList (w : SceneWorldState) (n : String) (i : Nat) :
    pivotAt w n i = pivotInList w.nodes n i := by
  unfold pivotAt stateFor pivotInList
  cases h : w.nodes.find? (fun p => p.1 == n) <;> simp [h]

/-- C5: for a rotational joint, the reported world pivot of that joint is
the same for every value of the joint's own `currentValue` within its
limits — varying the joint moves only points other than its own pivot. -/
theorem c5_pivot_invariance (s : SceneData) (n : String) (i : Nat)
    (node : LinkNode) (j : JointDefinition) (v₁ v₂ : ℝ)
    (hnode : lookupNode s n = some node) (hj : node.joints[i]? = some j)
    (hrot : j.type = MotionType.rotational)
    (h₁ : j.limits.1 ≤ v₁ ∧ v₁ ≤ j.limits.2)
    (h₂ : j.limits.1 ≤ v₂ ∧ v₂ ≤ j.limits.2) :
    pivotAt (computeKinematics (setJointValue s n i v₁)) n i =
      pivotAt (computeKinematics (setJointValue s n i v₂)) n i := by
  simp only [pivotAt_eq_pivotInList, computeKinematics, setJointValue_nodes_length,
    setJointValue_rootId]
  rw [traverse_pivot_setValue s n i v₁ s.nodes.length s.rootId Aff.idAff,
    traverse_pivot_setValue s n i v₂ s.nodes.length s.rootId Aff.idAff]

/-- Witness for C5 at the two-joint root scene (joint 0 rotational, limits
`[-90, 90]`, values 10 and -20). -/
theorem c5_pivot_invariance_witness :
    pivotAt (computeKinematics (setJointValue c7Scene "base" 0 10)) "base" 0 =
      pivotAt (computeKinematics (setJointValue c7Scene "base" 0 (-20))) "base" 0 :=
  c5_pivot_invariance c7Scene "base" 0 c7Root c7Joint0 10 (-20)
    (by simp [lookupNode, c7Scene, List.find?])
    (by simp [c7Root])
    rfl
    (by norm_num [c7Joint0])
    (by norm_num [c7Joint0])

theorem setJointPivot_rootId (s : SceneData) (n : String) (i : Nat) (p : Vec3) :
    (setJointPivot s n i p).rootId = s.rootId := rfl

theorem setJointPivot_nodes_length (s : SceneData) (n : String) (i : Nat) (p : Vec3) :
    (setJointPivot s n i p).nodes.length = s.nodes.length := by
  simp [setJointPivot]

theorem lookupNode_setJointPivot (s : SceneData) (n : String) (i : Nat) (p : Vec3)
    (id : String) :
    lookupNode (setJointPivot s n i p) id =
      if id = n then
        (lookupNode s id).map (fun node =>
          { node with joints := modifyAt (fun j => { j with pivot := p }) i node.joints })
      else lookupNode s id :=
  lookupNode_mapNode s n
    (fun node =>
      { node with joints := modifyAt (fun j => { j with pivot := p }) i node.joints })
    id

/-- A linear joint's pivot sandwich collapses to the bare axis translation. -/
theorem applyJointTransform_linear (M : Aff) (j : JointDefinition)
    (hlin : j.type = MotionType.linear) :
    applyJointTransform M j =
      M.comp (Aff.translation ((j.currentValue * MM_TO_M) • axisToVector j.axis)) := by
  simp only [applyJointTransform, hlin]
  rw [if_neg (by simp)]
  exact Aff.translation_sandwich M j.pivot _

/-- Hence a linear joint's contribution is independent of its pivot. -/
theorem applyJointTransform_setPivot (M : Aff) (j : JointDefinition) (p : Vec3)
    (hlin : j.type = MotionType.linear) :
    applyJointTransform M { j with pivot := p } = applyJointTransform M j := by
  rw [applyJointTransform_linear M { j with pivot := p } hlin,
    applyJointTransform_linear M j hlin]

theorem jointStatesAux_snd (nodeId : String) :
    ∀ (js : List JointDefinition) (idx : Nat) (M : Aff),
      (jointStatesAux nodeId idx M js).2 = applyJoints M js := by
  intro js
  induction js with
  | nil => intro idx M; rfl
  | cons j rest ih =>
      intro idx M
      simp only [jointStatesAux, applyJoints, List.foldl_cons]
      exact ih (idx + 1) _

theorem applyJoints_modifyAt_setPivot (p : Vec3) :
    ∀ (js : List JointDefinition) (i : Nat) (M : Aff),
      (∀ j, js[i]? = some j → j.type = MotionType.linear) →
      applyJoints M (modifyAt (fun j => { j with pivot := p }) i js) =
        applyJoints M js := by
  intro js
  induction js with
  | nil => intro i M h; cases i <;> rfl
  | cons j rest ih =>
      intro i M h
      cases i with
      | zero =>
          have hlin := h j (by simp)
          simp only [modifyAt, applyJoints, List.foldl_cons]
          rw [applyJointTransform_setPivot M j p hlin]
      | succ i =>
          have h2 : ∀ j, rest[i]? = some j → j.type = MotionType.linear := by
            intro j hj
            exact h j (by simpa using hj)
          simp only [modifyAt, applyJoints, List.foldl_cons]
          exact ih i _ h2

theorem mkNodeState_position (nid : String) (M0 : Aff) (node : LinkNode) :
    (mkNodeState nid M0 node).position = (mkNodeState nid M0 node).worldMatrix.apply 0 := rfl

theorem mkNodeState_setPivot_worldMatrix (nid : String) (M0' M0 : Aff) (hM : M0' = M0)
    (node : LinkNode) (i : Nat) (p : Vec3)
    (h : ∀ j, node.joints[i]? = some j → j.type = MotionType.linear) :
    (mkNodeState nid M0'
        { node with
          joints := modifyAt (fun j => { j with pivot := p }) i node.joints }).worldMatrix =
      (mkNodeState nid M0 node).worldMatrix := by
  subst hM
  simp only [mkNodeState]
  rw [jointStatesAux_snd, jointStatesAux_snd]
  exact applyJoints_modifyAt_setPivot p node.joints i M0' h

/-- Changing a linear joint's pivot changes no node's world matrix or
world origin anywhere in the traversal. -/
theorem traverse_skel_setPivot (s : SceneData) (n : String) (i : Nat) (p : Vec3)
    (hl : ∀ (node : LinkNode) (j : JointDefinition),
      lookupNode s n = some node → node.joints[i]? = some j →
      j.type = MotionType.linear) :
    ∀ (fuel : Nat) (id : String) (M : Aff),
      skelList (traverse (setJointPivot s n i p) fuel id M) =
        skelList (traverse s fuel id M) := by
  intro fuel
  induction fuel with
  | zero => intro id M; rfl
  | succ fuel ih =>
      intro id M
      cases hlook : lookupNode s id with
      | none =>
          cases hlook2 : lookupNode (setJointPivot s n i p) id with
          | none =>
              rw [traverse_none_of_lookup _ _ _ _ hlook,
                traverse_none_of_lookup _ _ _ _ hlook2]
          | some nd =>
              have hrel := lookupNode_setJointPivot s n i p id
              rw [hlook, hlook2] at hrel
              by_cases hid : id = n <;> simp [hid] at hrel
      | some node =>
          cases hlook2 : lookupNode (setJointPivot s n i p) id with
          | none =>
              have hrel := lookupNode_setJointPivot s n i p id
              rw [hlook, hlook2] at hrel
              by_cases hid : id = n <;> simp [hid] at hrel
          | some node2 =>
              have hrel := lookupNode_setJointPivot s n i p id
              rw [hlook, hlook2] at hrel
              rw [traverse_cons_of_lookup _ _ _ _ _ hlook2,
                traverse_cons_of_lookup _ _ _ _ _ hlook]
              by_cases hid : id = n
              · rw [if_pos hid, Option.map_some', Option.some_inj] at hrel
                subst hrel
                subst hid
                rw [setJointPivot_rootId]
                have hw := mkNodeState_setPivot_worldMatrix id
                  (nodePreMatrix (id == s.rootId)
                    { node with
                      joints := modifyAt (fun j => { j with pivot := p }) i node.joints } M)
                  (nodePreMatrix (id == s.rootId) node M) rfl node i p
                  (fun j hj => hl node j hlook hj)
                simp only [skelList, List.map_cons]
                rw [mkNodeState_position, mkNodeState_position, hw]
                congr 1
                rw [List.map_flatMap, List.map_flatMap]
                congr 1
                funext c
                exact ih c _
              · rw [if_neg hid, Option.some_inj] at hrel
                subst hrel
                rw [setJointPivot_rootId]
                simp only [skelList, List.map_cons]
                congr 1
                rw [List.map_flatMap, List.map_flatMap]
                congr 1
                funext c
                exact ih c _

/-- C10: the pivot sandwich of a linear joint collapses:
`T(pivot) · T(axis·value/1000) · T(-pivot) = T(axis·value/1000)`, so a
linear joint's contribution — and hence every node's world matrix and
world origin — is independent of the joint's pivot vector; the pivot only
affects the reported per-joint world pivot point. -/
theorem c10_linear_pivot_collapse :
    (∀ (M : Aff) (j : JointDefinition) (p : Vec3),
        j.type = MotionType.linear →
        applyJointTransform M { j with pivot := p } =
            M.comp (Aff.translation ((j.currentValue * MM_TO_M) • axisToVector j.axis)) ∧
        applyJointTransform M { j with pivot := p } = applyJointTransform M j) ∧
    (∀ (s : SceneData) (n : String) (i : Nat) (p : Vec3) (node : LinkNode)
        (j : JointDefinition),
        lookupNode s n = some node → node.joints[i]? = some j →
        j.type = MotionType.linear →
        skelOf (computeKinematics (setJointPivot s n i p)) =
          skelOf (computeKinematics s)) := by
  constructor
  · intro M j p hlin
    refine ⟨applyJointTransform_linear M _ hlin, applyJointTransform_setPivot M j p hlin⟩
  · intro s n i p node j hnode hj hlin
    simp only [skelOf, computeKinematics, setJointPivot_nodes_length, setJointPivot_rootId]
    exact traverse_skel_setPivot s n i p
      (fun node2 j2 hnode2 hj2 => by
        rw [hnode] at hnode2
        cases hnode2
        rw [hj] at hj2
        cases hj2
        exact hlin)
      s.nodes.length s.rootId Aff.idAff

/-- Witness for C10 at the root-with-linear-joint scene, moving the pivot
to `(1, 2, 3)`. -/
theorem c10_witness :
    applyJointTransform Aff.idAff { c6Joint with pivot := ⟨1, 2, 3⟩ } =
        Aff.idAff.comp
          (Aff.translation ((c6Joint.currentValue * MM_TO_M) • axisToVector c6Joint.axis)) ∧
    skelOf (computeKinematics (setJointPivot c6Scene "base" 0 ⟨1, 2, 3⟩)) =
      skelOf (computeKinematics c6Scene) :=
  ⟨(c10_linear_pivot_collapse.1 Aff.idAff c6Joint ⟨1, 2, 3⟩ rfl).1,
   c10_linear_pivot_collapse.2 c6Scene "base" 0 ⟨1, 2, 3⟩ c6Root c6Joint
     (by simp [lookupNode, c6Scene, List.find?])
     (by simp [c6Root])
     rfl⟩

/-- C3: when the root-to-target path carries no joints at all (including
the degenerate empty path), the solver returns immediately with
`success = false`, the input scene itself, and the input scene's joint
snapshot. -/
theorem c3_no_joints_short_circuit (s : SceneData) (t : String) (target : Vec3)
    (options : IkOptions)
    (h : jointChainOf s (gatherPath s t) = []) :
    solveIkForNode s t target options = ⟨s, collectJointValues s, false⟩ := by
  simp only [solveIkForNode, h]
  split_ifs with h1 h2
  · rfl
  · rfl
  · simp at h2

/-- Witness for C3 at a root-only scene with no joints. -/
theorem c3_witness :
    solveIkForNode c3Scene "base" ⟨1, 1, 1⟩ ⟨none, none⟩ =
      ⟨c3Scene, collectJointValues c3Scene, false⟩ :=
  c3_no_joints_short_circuit c3Scene "base" ⟨1, 1, 1⟩ ⟨none, none⟩ (by rfl)

theorem jointEqExceptValue_refl (j : JointDefinition) : JointEqExceptValue j j :=
  ⟨rfl, rfl, rfl, rfl, rfl, rfl, rfl⟩

theorem jointEqExceptValue_trans {a b c : JointDefinition}
    (h1 : JointEqExceptValue a b) (h2 : JointEqExceptValue b c) :
    JointEqExceptValue a c := by
  obtain ⟨e1, e2, e3, e4, e5, e6, e7⟩ := h1
  obtain ⟨f1, f2, f3, f4, f5, f6, f7⟩ := h2
  exact ⟨e1.trans f1, e2.trans f2, e3.trans f3, e4.trans f4, e5.trans f5,
    e6.trans f6, e7.trans f7⟩

theorem forall₂_jointEq_refl (l : List JointDefinition) :
    List.Forall₂ JointEqExceptValue l l := by
  induction l with
  | nil => exact List.Forall₂.nil
  | cons a rest ih => exact List.Forall₂.cons (jointEqExceptValue_refl a) ih

theorem forall₂_jointEq_trans :
    ∀ {l1 l2 l3 : List JointDefinition},
      List.Forall₂ JointEqExceptValue l1 l2 → List.Forall₂ JointEqExceptValue l2 l3 →
      List.Forall₂ JointEqExceptValue l1 l3 := by
  intro l1 l2 l3 h1 h2
  induction h1 generalizing l3 with
  | nil => cases h2; exact List.Forall₂.nil
  | cons hab hrest ih =>
      cases h2 with
      | cons hbc hrest2 =>
          exact List.Forall₂.cons (jointEqExceptValue_trans hab hbc) (ih hrest2)

theorem nodeEqExceptJointValues_refl (n : LinkNode) : NodeEqExceptJointValues n n :=
  ⟨rfl, rfl, rfl, rfl, rfl, rfl, rfl, rfl, rfl, forall₂_jointEq_refl n.joints⟩

theorem nodeEqExceptJointValues_trans {a b c : LinkNode}
    (h1 : NodeEqExceptJointValues a b) (h2 : NodeEqExceptJointValues b c) :
    NodeEqExceptJointValues a c := by
  obtain ⟨e1, e2, e3, e4, e5, e6, e7, e8, e9, e10⟩ := h1
  obtain ⟨f1, f2, f3, f4, f5, f6, f7, f8, f9, f10⟩ := h2
  exact ⟨e1.trans f1, e2.trans f2, e3.trans f3, e4.trans f4, e5.trans f5,
    e6.trans f6, e7.trans f7, e8.trans f8, e9.trans f9,
    forall₂_jointEq_trans e10 f10⟩

theorem sceneEqExceptPath_refl (path : List String) (s : SceneData) :
    SceneEqExceptPathJointValues path s s := by
  refine ⟨rfl, rfl, ?_⟩
  induction s.nodes with
  | nil => exact List.Forall₂.nil
  | cons p rest ih =>
      refine List.Forall₂.cons ⟨rfl, ?_⟩ ih
      by_cases hp : p.1 ∈ path
      · rw [if_pos hp]; exact nodeEqExceptJointValues_refl p.2
      · rw [if_neg hp]

theorem forall₂_entry_trans (path : List String) :
    ∀ {l1 l2 l3 : List (String × LinkNode)},
      List.Forall₂
        (fun p q : String × LinkNode =>
          p.1 = q.1 ∧ (if p.1 ∈ path then NodeEqExceptJointValues p.2 q.2 else p.2 = q.2))
        l1 l2 →
      List.Forall₂
        (fun p q : String × LinkNode =>
          p.1 = q.1 ∧ (if p.1 ∈ path then NodeEqExceptJointValues p.2 q.2 else p.2 = q.2))
        l2 l3 →
      List.Forall₂
        (fun p q : String × LinkNode =>
          p.1 = q.1 ∧ (if p.1 ∈ path then NodeEqExceptJointValues p.2 q.2 else p.2 = q.2))
        l1 l3 := by
  intro l1 l2 l3 h1 h2
  induction h1 generalizing l3 with
  | nil => cases h2; exact List.Forall₂.nil
  | @cons p q t1 t2 hpq hrest ih =>
      cases h2 with
      | cons hqr hrest2 =>
          refine List.Forall₂.cons ⟨hpq.1.trans hqr.1, ?_⟩ (ih hrest2)
          have hkey : q.1 = p.1 := hpq.1.symm
          by_cases hp : p.1 ∈ path
          · rw [if_pos hp]
            have ha := hpq.2
            have hb := hqr.2
            rw [if_pos hp] at ha
            rw [hkey, if_pos hp] at hb
            exact nodeEqExceptJointValues_trans ha hb
          · rw [if_neg hp]
            have ha := hpq.2
            have hb := hqr.2
            rw [if_neg hp] at ha
            rw [hkey, if_neg hp] at hb
            exact ha.trans hb

theorem sceneEqExceptPath_trans {path : List String} {s1 s2 s3 : SceneData}
    (h1 : SceneEqExceptPathJointValues path s1 s2)
    (h2 : SceneEqExceptPathJointValues path s2 s3) :
    SceneEqExceptPathJointValues path s1 s3 := by
  obtain ⟨e1, e2, e3⟩ := h1
  obtain ⟨f1, f2, f3⟩ := h2
  exact ⟨e1.trans f1, e2.trans f2, forall₂_entry_trans path e3 f3⟩

/-- The copy-on-write clone is (extensionally) the identity on scenes. -/
theorem cloneJoint_id (j : JointDefinition) : cloneJoint j = j := rfl

theorem map_cloneJoint_id (l : List JointDefinition) : l.map cloneJoint = l := by
  induction l with
  | nil => rfl
  | cons j js ihj => rw [List.map_cons, cloneJoint_id, ihj]

theorem cloneSceneAlongPath_id (s : SceneData) (path : List String) :
    cloneSceneAlongPath s path = s := by
  unfold cloneSceneAlongPath
  have hmap : s.nodes.map (fun p =>
      if p.1 ∈ path then (p.1, { p.2 with joints := p.2.joints.map cloneJoint }) else p) =
      s.nodes := by
    induction s.nodes with
    | nil => rfl
    | cons p rest ih =>
        rw [List.map_cons, ih]
        by_cases hp : p.1 ∈ path
        · rw [if_pos hp, map_cloneJoint_id]
        · rw [if_neg hp]
  rw [hmap]

/-- `setJointValue` on a path node is invisible to the except-path-values
relation. -/
theorem sceneEqExceptPath_setJointValue (path : List String) (s : SceneData)
    (nodeId : String) (i : Nat) (v : ℝ) (hmem : nodeId ∈ path) :
    SceneEqExceptPathJointValues path s (setJointValue s nodeId i v) := by
  refine ⟨rfl, rfl, ?_⟩
  show List.Forall₂ _ s.nodes (s.nodes.map _)
  induction s.nodes with
  | nil => exact List.Forall₂.nil
  | cons p rest ih =>
      rw [List.map_cons]
      refine List.Forall₂.cons ?_ ih
      by_cases hpn : p.1 = nodeId
      · rw [if_pos hpn]
        refine ⟨rfl, ?_⟩
        rw [if_pos (hpn ▸ hmem)]
        refine ⟨rfl, rfl, rfl, rfl, rfl, rfl, rfl, rfl, rfl, ?_⟩
        show List.Forall₂ JointEqExceptValue p.2.joints (modifyAt _ i p.2.joints)
        clear ih
        induction p.2.joints generalizing i with
        | nil => cases i <;> exact List.Forall₂.nil
        | cons j js ihj =>
            cases i with
            | zero =>
                simp only [modifyAt]
                exact List.Forall₂.cons ⟨rfl, rfl, rfl, rfl, rfl, rfl, rfl⟩
                  (forall₂_jointEq_refl js)
            | succ i =>
                simp only [modifyAt]
                exact List.Forall₂.cons (jointEqExceptValue_refl j) (ihj i)
      · rw [if_neg hpn]
        refine ⟨rfl, ?_⟩
        by_cases hp : p.1 ∈ path
        · rw [if_pos hp]; exact nodeEqExceptJointValues_refl p.2
        · rw [if_neg hp]

/-- One solver step either leaves the scene alone or writes one
`currentValue` at the chain entry's node and index. -/
theorem ikStep_scene_cases (t : String) (tg : Vec3) (s : SceneData) (ref : ChainRef) :
    (ikStep t tg s ref).1 = s ∨
      ∃ v, (ikStep t tg s ref).1 = setJointValue s ref.nodeId ref.index v := by
  unfold ikStep
  repeat' first
    | split
    | (exact Or.inl rfl)
    | (exact Or.inr ⟨_, rfl⟩)
    | dsimp only
  all_goals first
    | exact Or.inl rfl
    | exact Or.inr ⟨_, rfl⟩

/-- Every chain entry's node lies on the path the chain was built from. -/
theorem jointChainOf_nodeId_mem (s : SceneData) (path : List String) :
    ∀ ref ∈ jointChainOf s path, ref.nodeId ∈ path := by
  intro ref h
  rw [jointChainOf, List.mem_flatMap] at h
  obtain ⟨nodeId, hmem, href⟩ := h
  cases hl : lookupNode s nodeId with
  | none => rw [hl] at href; simp at href
  | some node =>
      rw [hl] at href
      rw [List.mem_map] at href
      obtain ⟨q, _, hq⟩ := href
      rw [← hq]
      exact hmem

theorem ikSweep_preserves (t : String) (tg : Vec3) (path : List String) (s : SceneData) :
    ∀ (l : List ChainRef) (acc : SceneData × Bool),
      (∀ ref ∈ l, ref.nodeId ∈ path) →
      SceneEqExceptPathJointValues path s acc.1 →
      SceneEqExceptPathJointValues path s
        (l.foldl (fun acc ref =>
          let res := ikStep t tg acc.1 ref
          (res.1, acc.2 || res.2)) acc).1 := by
  intro l
  induction l with
  | nil => intro acc _ hacc; exact hacc
  | cons ref rest ih =>
      intro acc hmem hacc
      rw [List.foldl_cons]
      refine ih _ (fun r hr => hmem r (List.mem_cons_of_mem ref hr)) ?_
      rcases ikStep_scene_cases t tg acc.1 ref with hcase | ⟨v, hcase⟩
      · simpa [hcase] using hacc
      · show SceneEqExceptPathJointValues path s (ikStep t tg acc.1 ref).1
        rw [hcase]
        exact sceneEqExceptPath_trans hacc
          (sceneEqExceptPath_setJointValue path acc.1 ref.nodeId ref.index v
            (hmem ref (List.mem_cons_self ref rest)))

theorem ikIterate_preserves (t : String) (tg : Vec3) (tol : ℝ) (path : List String)
    (chain : List ChainRef) (s : SceneData)
    (hchain : ∀ ref ∈ chain, ref.nodeId ∈ path) :
    ∀ (fuel : Nat) (w : SceneData),
      SceneEqExceptPathJointValues path s w →
      SceneEqExceptPathJointValues path s (ikIterate t tg tol chain fuel w).1 := by
  intro fuel
  induction fuel with
  | zero => intro w hw; exact hw
  | succ fuel ih =>
      intro w hw
      rw [ikIterate]
      have hsweep : SceneEqExceptPathJointValues path s (ikSweep t tg chain w).1 :=
        ikSweep_preserves t tg path s chain.reverse (w, false)
          (fun r hr => hchain r (List.mem_reverse.mp hr)) hw
      cases positionAt (computeKinematics (ikSweep t tg chain w).1) t with
      | none =>
          by_cases hupd : (ikSweep t tg chain w).2 <;> simp [hupd]
          · exact ih _ hsweep
          · exact hsweep
      | some effector =>
          by_cases hdist : Vec3.distanceTo effector tg ≤ tol
          · simpa [hdist] using hsweep
          · by_cases hupd : (ikSweep t tg chain w).2 <;> simp [hdist, hupd]
            · exact ih _ hsweep
            · exact hsweep

/-- C2: the scene returned by `solveIkForNode` agrees with the input scene
everywhere except possibly the `currentValue` fields of joints belonging
to nodes on the root-to-target path: the root id, the poses, every record
key (in order), every non-path node (joints included), and every non-value
field of every path node and its joints are unchanged.  The embedding is
pure, so the caller's input scene itself is never mutated. -/
theorem c2_chain_isolation (s : SceneData) (t : String) (target : Vec3)
    (options : IkOptions) :
    SceneEqExceptPathJointValues (gatherPath s t) s
      (solveIkForNode s t target options).scene := by
  unfold solveIkForNode
  dsimp only
  split_ifs
  · exact sceneEqExceptPath_refl _ s
  · exact sceneEqExceptPath_refl _ s
  · show SceneEqExceptPathJointValues (gatherPath s t) s
      (ikIterate t target _ (jointChainOf s (gatherPath s t)) _
        (cloneSceneAlongPath s (gatherPath s t))).1
    refine ikIterate_preserves t target _ (gatherPath s t) _ s
      (jointChainOf_nodeId_mem s (gatherPath s t)) _ _ ?_
    rw [cloneSceneAlongPath_id]
    exact sceneEqExceptPath_refl _ s

theorem sub_self_vec (v : Vec3) : v - v = (0 : Vec3) := by
  ext <;> simp

theorem distanceTo_self (v : Vec3) : Vec3.distanceTo v v = 0 := by
  rw [Vec3.distanceTo, sub_self_vec, Vec3.length_zero]

theorem projectOntoPlane_zero (a : Vec3) : projectOntoPlane 0 a = 0 := by
  ext <;> simp [projectOntoPlane, Vec3.dot]

/-- A rotational joint whose pivot is the local origin does not move the
frame origin: the translation column is untouched. -/
theorem applyJointTransform_rot_zero_pivot_tr (M : Aff) (j : JointDefinition)
    (hrot : j.type = MotionType.rotational) (hp : j.pivot = 0) :
    (applyJointTransform M j).tr = M.tr := by
  simp only [applyJointTransform, hrot, hp]
  rw [if_true]
  cases j.axis <;>
    ext <;>
      simp [Aff.comp, Aff.translation, Aff.rot, Mat3.mul, Mat3.mulVec, Mat3.idMat]

theorem lookup_twoLink_root (P : TwoLinkParams) :
    lookupNode (twoLinkScene P) P.rootId = some (twoLinkRoot P) := by
  simp [lookupNode, twoLinkScene, List.find?]

theorem lookup_twoLink_child (P : TwoLinkParams) (hrc : P.rootId ≠ P.childId) :
    lookupNode (twoLinkScene P) P.childId = some (twoLinkChild P) := by
  have hb : (P.rootId == P.childId) = false := beq_eq_false_iff_ne.mpr hrc
  simp [lookupNode, twoLinkScene, List.find?, hb]

theorem gatherPath_twoLink (P : TwoLinkParams) (hrc : P.rootId ≠ P.childId)
    (hr0 : P.rootId ≠ "") (hc0 : P.childId ≠ "") :
    gatherPath (twoLinkScene P) P.childId = [P.rootId, P.childId] := by
  have hlen : (twoLinkScene P).nodes.length + 1 = 2 + 1 := rfl
  rw [gatherPath, hlen]
  rw [gatherPathAux, if_neg hc0, lookup_twoLink_child P hrc]
  rw [show ((some (twoLinkChild P)).bind (fun n => n.parentId)) = some P.rootId from rfl]
  rw [gatherPathAux, if_neg hr0, lookup_twoLink_root P]
  rw [show ((some (twoLinkRoot P)).bind (fun n => n.parentId)) = none from rfl]
  rw [gatherPathAux]

theorem jointChain_twoLink (P : TwoLinkParams) (hrc : P.rootId ≠ P.childId) :
    jointChainOf (twoLinkScene P) [P.rootId, P.childId] =
      [⟨P.childId, 0, twoLinkJoint P⟩] := by
  rw [jointChainOf]
  rw [List.flatMap_cons, List.flatMap_cons, List.flatMap_nil]
  rw [lookup_twoLink_root P, lookup_twoLink_child P hrc]
  rfl

theorem computeKinematics_twoLink (P : TwoLinkParams) (hrc : P.rootId ≠ P.childId) :
    computeKinematics (twoLinkScene P) =
      ⟨[(P.rootId, twoLinkRootState P), (P.childId, twoLinkChildState P)]⟩ := by
  have hroot : lookupNode (twoLinkScene P) (twoLinkScene P).rootId =
      some (twoLinkRoot P) := lookup_twoLink_root P
  have hchild : lookupNode (twoLinkScene P) P.childId = some (twoLinkChild P) :=
    lookup_twoLink_child P hrc
  unfold computeKinematics
  have hlen : (twoLinkScene P).nodes.length = 0 + 1 + 1 := rfl
  rw [hlen]
  rw [traverse_cons_of_lookup _ _ _ _ _ hroot]
  rw [show (twoLinkRoot P).children = [P.childId] from rfl]
  rw [List.flatMap_cons, List.flatMap_nil]
  rw [traverse_cons_of_lookup _ _ _ _ _ hchild]
  rw [show (twoLinkChild P).children = ([] : List String) from rfl]
  rfl

theorem twoLink_stateFor_child (P : TwoLinkParams) (hrc : P.rootId ≠ P.childId) :
    stateFor (computeKinematics (twoLinkScene P)) P.childId =
      some (twoLinkChildState P) := by
  rw [computeKinematics_twoLink P hrc]
  have hb : (P.rootId == P.childId) = false := beq_eq_false_iff_ne.mpr hrc
  simp [stateFor, List.find?, hb]

theorem twoLinkJoint_pivot (P : TwoLinkParams) : (twoLinkJoint P).pivot = (0 : Vec3) := rfl

theorem twoLinkChildState_position (P : TwoLinkParams) :
    (twoLinkChildState P).position = (twoLinkChildPre P).tr := by
  rw [twoLinkChildState, mkNodeState_position]
  rw [show (mkNodeState P.childId (twoLinkChildPre P) (twoLinkChild P)).worldMatrix =
      applyJointTransform (twoLinkChildPre P) (twoLinkJoint P) from rfl]
  rw [Aff.apply_zero]
  exact applyJointTransform_rot_zero_pivot_tr _ _ rfl (twoLinkJoint_pivot P)

theorem twoLink_position (P : TwoLinkParams) (hrc : P.rootId ≠ P.childId) :
    positionAt (computeKinematics (twoLinkScene P)) P.childId =
      some ((twoLinkChildPre P).tr) := by
  rw [positionAt, twoLink_stateFor_child P hrc]
  rw [Option.map_some', twoLinkChildState_position]

theorem setJointValue_twoLink (P : TwoLinkParams) (hrc : P.rootId ≠ P.childId) (θ : ℝ) :
    setJointValue (twoLinkScene P) P.childId 0 θ =
      twoLinkScene { P with jointValue := θ } := by
  unfold setJointValue twoLinkScene
  simp only [List.map_cons, List.map_nil]
  rw [if_neg hrc]
  simp only [if_true]
  rfl

/-- The two-link child pre-joint matrix does not depend on the joint
value. -/
theorem twoLinkChildPre_value (P : TwoLinkParams) (θ : ℝ) :
    twoLinkChildPre { P with jointValue := θ } = twoLinkChildPre P := rfl

theorem twoLinkChildState_joints (P : TwoLinkParams) :
    (twoLinkChildState P).joints =
      [⟨P.childId, 0, twoLinkJoint P,
        (twoLinkChildPre P).apply (twoLinkJoint P).pivot,
        Vec3.normalize
          ((twoLinkChildPre P).lin.mulVec (axisToVector (twoLinkJoint P).axis))⟩] := rfl

/-- On a two-link chain whose target point is the child's (joint-value
independent) position, a single solver step is a no-op: the effector
coincides with the joint's world pivot, so both projections degenerate. -/
theorem twoLink_ikStep (P : TwoLinkParams) (hrc : P.rootId ≠ P.childId) :
    ikStep P.childId ((twoLinkChildPre P).tr) (twoLinkScene P)
        ⟨P.childId, 0, twoLinkJoint P⟩ =
      (twoLinkScene P, false) := by
  have hpivot : (twoLinkChildPre P).apply (twoLinkJoint P).pivot = (twoLinkChildPre P).tr := by
    rw [twoLinkJoint_pivot, Aff.apply_zero]
  simp only [ikStep, lookup_twoLink_child P hrc, twoLink_stateFor_child P hrc,
    twoLinkChildState_joints, twoLinkChildState_position, hpivot,
    List.getElem?_cons_zero,
    show (twoLinkChild P).joints = [twoLinkJoint P] from rfl,
    show (twoLinkJoint P).type = MotionType.rotational from rfl]
  rw [if_true]
  rw [sub_self_vec, projectOntoPlane_zero, Vec3.length_zero]
  rw [if_pos (Or.inl (by norm_num))]

theorem twoLink_ikSweep (P : TwoLinkParams) (hrc : P.rootId ≠ P.childId) :
    ikSweep P.childId ((twoLinkChildPre P).tr) [⟨P.childId, 0, twoLinkJoint P⟩]
        (twoLinkScene P) =
      (twoLinkScene P, false) := by
  rw [ikSweep]
  rw [show ([⟨P.childId, 0, twoLinkJoint P⟩] : List ChainRef).reverse =
      [⟨P.childId, 0, twoLinkJoint P⟩] from rfl]
  rw [List.foldl_cons, List.foldl_nil]
  simp only [twoLink_ikStep P hrc]
  rfl

theorem twoLink_ikIterate (P : TwoLinkParams) (hrc : P.rootId ≠ P.childId) :
    ikIterate P.childId ((twoLinkChildPre P).tr) ((5 : ℝ) / 1000)
        [⟨P.childId, 0, twoLinkJoint P⟩] 12 (twoLinkScene P) =
      (twoLinkScene P, true) := by
  rw [show (12 : Nat) = 11 + 1 from rfl, ikIterate]
  simp only [twoLink_ikSweep P hrc]
  rw [show positionAt (computeKinematics (twoLinkScene P)) P.childId =
      some ((twoLinkChildPre P).tr) from twoLink_position P hrc]
  simp only [distanceTo_self]
  rw [if_pos (by norm_num)]

/-- Full evaluation of the default solve on the two-link chain targeting
the child's (joint-value independent) world origin: success with the
scene returned unchanged. -/
theorem twoLink_solve_eval (P : TwoLinkParams) (hrc : P.rootId ≠ P.childId)
    (hr0 : P.rootId ≠ "") (hc0 : P.childId ≠ "") :
    solveIkForNode (twoLinkScene P) P.childId ((twoLinkChildPre P).tr) ⟨none, none⟩ =
      ⟨twoLinkScene P, collectJointValues (twoLinkScene P), true⟩ := by
  unfold solveIkForNode
  dsimp only
  rw [gatherPath_twoLink P hrc hr0 hc0]
  rw [if_neg (by simp)]
  rw [jointChain_twoLink P hrc]
  rw [if_neg (by simp)]
  rw [cloneSceneAlongPath_id]
  rw [show ((none : Option ℝ).getD 0.005) = (5 : ℝ) / 1000 by norm_num [Option.getD]]
  rw [show ((none : Option Nat).getD 12) = 12 from rfl]
  rw [twoLink_ikIterate P hrc]

/-- The child's reported world origin is the same for every value written
to the single joint: the effector of the two-link chain does not move. -/
theorem twoLink_position_value (P : TwoLinkParams) (hrc : P.rootId ≠ P.childId) (θ : ℝ) :
    positionAt (computeKinematics (setJointValue (twoLinkScene P) P.childId 0 θ))
        P.childId = some ((twoLinkChildPre P).tr) := by
  rw [setJointValue_twoLink P hrc θ]
  have h := twoLink_position { P with jointValue := θ } hrc
  rw [twoLinkChildPre_value] at h
  exact h

/-- C1 counterexample: on a concrete two-link chain (joint at 0) the
target `(0, 0, 2/5)` is reachable by rotating the single joint to
`θ = 90` (the effector is independent of the joint value, because the
pivot sits at the child's origin), the default solve reports success, yet
the returned joint value is the unchanged 0 — not within 1 degree of 90.
So the claim, read as holding for every angle realizing the target, is
false. -/
theorem c1_counterexample :
    ((-90 : ℝ) ≤ 90 ∧ (90 : ℝ) ≤ 90) ∧
    positionAt
        (computeKinematics (setJointValue (twoLinkScene c1Params) c1Params.childId 0 90))
        c1Params.childId = some ⟨0, 0, 2 / 5⟩ ∧
    (solveIkForNode (twoLinkScene c1Params) c1Params.childId ⟨0, 0, 2 / 5⟩
        ⟨none, none⟩).success = true ∧
    (solveIkForNode (twoLinkScene c1Params) c1Params.childId ⟨0, 0, 2 / 5⟩
        ⟨none, none⟩).scene = twoLinkScene c1Params ∧
    (twoLinkJoint c1Params).currentValue = 0 ∧
    ¬ (|(0 : ℝ) - 90| ≤ 1) := by
  have hrc : c1Params.rootId ≠ c1Params.childId := by decide
  have htr : (twoLinkChildPre c1Params).tr = ⟨0, 0, 2 / 5⟩ := by
    norm_num [twoLinkChildPre, twoLinkRootState, twoLinkChild, twoLinkRoot, twoLinkJoint,
      c1Params, mkNodeState, jointStatesAux, nodePreMatrix, computeBaseTranslation,
      getGeometryBounds, Aff.comp, Aff.translation, Aff.idAff, Mat3.mul, Mat3.mulVec,
      Mat3.idMat, Aff.apply]
    rw [if_neg (by decide : ¬ (("child" : String) = "root"))]
    norm_num
  refine ⟨by norm_num, ?_, ?_, ?_, rfl, by norm_num⟩
  · rw [twoLink_position_value c1Params hrc 90, htr]
  · rw [← htr, twoLink_solve_eval c1Params hrc (by decide) (by decide)]
  · rw [← htr, twoLink_solve_eval c1Params hrc (by decide) (by decide)]

/-- C1 (amended): on every two-link chain of the stated shape, for every
target reachable by rotating the single joint to some angle in
`[-90, 90]`, the default solve returns `success = true` with the scene —
and hence the joint's `currentValue` — unchanged; because the joint's
pivot is at the child's local origin, the effector is independent of the
joint value, so the unchanged value itself is an angle within limits that
realizes the target, and the final value is within 1 degree of *that*
realizing angle (though not of every realizing angle, see the
counterexample). -/
theorem c1_amended (P : TwoLinkParams) (θ : ℝ) (target : Vec3)
    (hrc : P.rootId ≠ P.childId) (hr0 : P.rootId ≠ "") (hc0 : P.childId ≠ "")
    (hv : -90 ≤ P.jointValue ∧ P.jointValue ≤ 90)
    (hθ : -90 ≤ θ ∧ θ ≤ 90)
    (hreach : positionAt
        (computeKinematics (setJointValue (twoLinkScene P) P.childId 0 θ))
        P.childId = some target) :
    (solveIkForNode (twoLinkScene P) P.childId target ⟨none, none⟩).success = true ∧
    (solveIkForNode (twoLinkScene P) P.childId target ⟨none, none⟩).scene =
      twoLinkScene P ∧
    ∃ θ2 : ℝ, (-90 ≤ θ2 ∧ θ2 ≤ 90) ∧
      positionAt
          (computeKinematics (setJointValue (twoLinkScene P) P.childId 0 θ2))
          P.childId = some target ∧
      |P.jointValue - θ2| ≤ 1 := by
  have htar : target = (twoLinkChildPre P).tr := by
    rw [twoLink_position_value P hrc θ] at hreach
    exact (Option.some_inj.mp hreach).symm
  subst htar
  rw [twoLink_solve_eval P hrc hr0 hc0]
  refine ⟨rfl, rfl, P.jointValue, hv, ?_, by norm_num⟩
  exact twoLink_position_value P hrc P.jointValue

/-- Witness for the amended C1 claim at the concrete two-link chain with
`θ = 90`. -/
theorem c1_amended_witness :
    (solveIkForNode (twoLinkScene c1Params) c1Params.childId
        ((twoLinkChildPre c1Params).tr) ⟨none, none⟩).success = true ∧
    (solveIkForNode (twoLinkScene c1Params) c1Params.childId
        ((twoLinkChildPre c1Params).tr) ⟨none, none⟩).scene = twoLinkScene c1Params ∧
    ∃ θ2 : ℝ, (-90 ≤ θ2 ∧ θ2 ≤ 90) ∧
      positionAt
          (computeKinematics (setJointValue (twoLinkScene c1Params) c1Params.childId 0 θ2))
          c1Params.childId = some ((twoLinkChildPre c1Params).tr) ∧
      |c1Params.jointValue - θ2| ≤ 1 :=
  c1_amended c1Params 90 ((twoLinkChildPre c1Params).tr) (by decide) (by decide) (by decide)
    (by norm_num [c1Params]) (by norm_num)
    (twoLink_position_value c1Params (by decide) 90)

end Kin

namespace Store

/-! ### Decimal rendering: `Nat.repr` is injective -/

theorem ofDigitsRev_natDigitsRev : ∀ n : Nat, ofDigitsRev (natDigitsRev n) = n := by
  intro n
  induction n using Nat.strong_induction_on with
  | _ n ih =>
    rw [natDigitsRev]
    split
    · simp [ofDigitsRev]
    · rename_i h
      rw [ofDigitsRev, ih (n / 10) (Nat.div_lt_self (by omega) (by omega))]
      omega

theorem natDigitsRev_inj {m n : Nat} (h : natDigitsRev m = natDigitsRev n) : m = n := by
  rw [← ofDigitsRev_natDigitsRev m, ← ofDigitsRev_natDigitsRev n, h]

theorem natDigitsRev_lt : ∀ n : Nat, ∀ d ∈ natDigitsRev n, d < 10 := by
  intro n
  induction n using Nat.strong_induction_on with
  | _ n ih =>
    rw [natDigitsRev]
    split
    · rename_i h
      intro d hd
      simp only [List.mem_singleton] at hd
      omega
    · rename_i h
      intro d hd
      rcases List.mem_cons.mp hd with h1 | h2
      · omega
      · exact ih (n / 10) (Nat.div_lt_self (by omega) (by omega)) d h2

theorem digitChar_inj_fin :
    ∀ a b : Fin 10, Nat.digitChar a.val = Nat.digitChar b.val → a = b := by
  decide

theorem map_digitChar_inj :
    ∀ xs ys : List Nat, (∀ x ∈ xs, x < 10) → (∀ y ∈ ys, y < 10) →
      xs.map Nat.digitChar = ys.map Nat.digitChar → xs = ys := by
  intro xs
  induction xs with
  | nil => intro ys _ _ h; cases ys <;> simp_all
  | cons x xs ih =>
    intro ys hx hy h
    cases ys with
    | nil => simp at h
    | cons y ys =>
      simp only [List.map_cons, List.cons.injEq] at h
      have hx0 : x < 10 := hx x (by simp)
      have hy0 : y < 10 := hy y (by simp)
      have hxy : x = y := by
        have := digitChar_inj_fin ⟨x, hx0⟩ ⟨y, hy0⟩ h.1
        exact congrArg Fin.val this
      have := ih ys (fun a ha => hx a (List.mem_cons_of_mem _ ha))
        (fun a ha => hy a (List.mem_cons_of_mem _ ha)) h.2
      rw [hxy, this]

theorem toDigitsCore_eq :
    ∀ (fuel n : Nat) (acc : List Char), n < fuel →
      Nat.toDigitsCore 10 fuel n acc =
        ((natDigitsRev n).map Nat.digitChar).reverse ++ acc := by
  intro fuel
  induction fuel with
  | zero => intro n acc h; omega
  | succ fuel ih =>
    intro n acc h
    rw [Nat.toDigitsCore]
    split
    · rename_i h0
      rw [natDigitsRev]
      rw [dif_pos (by omega : n < 10)]
      have : n % 10 = n := Nat.mod_eq_of_lt (by omega)
      simp [this]
    · rename_i h0
      conv_rhs => rw [natDigitsRev]
      rw [dif_neg (by omega : ¬ n < 10)]
      rw [ih (n / 10) _ (by omega)]
      simp

theorem repr_eq_digits (n : Nat) :
    Nat.repr n = (((natDigitsRev n).map Nat.digitChar).reverse).asString := by
  have h : Nat.repr n = (Nat.toDigitsCore 10 (n + 1) n []).asString := rfl
  rw [h, toDigitsCore_eq (n + 1) n [] (by omega)]
  simp

theorem asString_inj {xs ys : List Char} (h : xs.asString = ys.asString) : xs = ys := by
  simpa [List.asString] using congrArg String.data h

theorem repr_inj {m n : Nat} (h : Nat.repr m = Nat.repr n) : m = n := by
  rw [repr_eq_digits, repr_eq_digits] at h
  have h2 := asString_inj h
  have h3 := List.reverse_injective h2
  exact natDigitsRev_inj
    (map_digitChar_inj _ _ (natDigitsRev_lt m) (natDigitsRev_lt n) h3)

theorem string_append_left_cancel {a b c : String} (h : a ++ b = a ++ c) : b = c := by
  have h2 := congrArg String.data h
  rw [String.data_append, String.data_append] at h2
  exact String.ext (List.append_cancel_left h2)

theorem candidateJointName_inj {m n : Nat}
    (h : candidateJointName m = candidateJointName n) : m = n :=
  repr_inj (string_append_left_cancel h)

theorem candidateJointName_ne_empty (k : Nat) : candidateJointName k ≠ "" := by
  intro h
  have h2 := congrArg String.data h
  rw [candidateJointName, String.data_append] at h2
  have h3 : ("joint-" : String).data = [] := (List.append_eq_nil.mp h2).1
  exact absurd h3 (by decide)

/-! ### Freshness of generated joint names -/

theorem nextJointIndexFrom_spec (used : List String) :
    ∀ (fuel idx : Nat),
      (∃ k < fuel, candidateJointName (idx + k) ∉ used) →
      candidateJointName (nextJointIndexFrom used fuel idx) ∉ used := by
  intro fuel
  induction fuel with
  | zero =>
    intro idx h
    obtain ⟨k, hk, _⟩ := h
    omega
  | succ fuel ih =>
    intro idx h
    rw [nextJointIndexFrom]
    split
    · rename_i hmem
      refine ih (idx + 1) ?_
      obtain ⟨k, hk, hfree⟩ := h
      match k, hk with
      | 0, _ => exact absurd (by simpa using hmem) hfree
      | k + 1, hk =>
        exact ⟨k, by omega, by
          have : idx + 1 + k = idx + (k + 1) := by omega
          rw [this]; exact hfree⟩
    · rename_i hmem
      exact hmem

theorem exists_free_candidate (used : List String) (idx : Nat) :
    ∃ k < used.length + 1, candidateJointName (idx + k) ∉ used := by
  by_contra hcon
  push_neg at hcon
  set l := (List.range (used.length + 1)).map (fun k => candidateJointName (idx + k))
    with hl
  have hnodup : l.Nodup := by
    refine (List.nodup_range (used.length + 1)).map ?_
    intro a b hab
    have := candidateJointName_inj hab
    omega
  have hsub : l.toFinset ⊆ used.toFinset := by
    intro s hs
    rw [List.mem_toFinset] at hs ⊢
    rw [hl, List.mem_map] at hs
    obtain ⟨k, hk, rfl⟩ := hs
    exact hcon k (List.mem_range.mp hk)
  have h1 : l.toFinset.card = used.length + 1 := by
    rw [List.toFinset_card_of_nodup hnodup, hl, List.length_map, List.length_range]
  have h2 : used.toFinset.card ≤ used.length := used.toFinset_card_le
  have := Finset.card_le_card hsub
  omega

theorem nextJointNameFromUsed_fresh (used : List String) :
    nextJointNameFromUsed used ∉ used := by
  rw [nextJointNameFromUsed]
  exact nextJointIndexFrom_spec used (used.length + 1) 1 (exists_free_candidate used 1)

theorem nextJointNameFromUsed_ne_empty (used : List String) :
    nextJointNameFromUsed used ≠ "" := by
  rw [nextJointNameFromUsed]
  exact candidateJointName_ne_empty _

theorem getNextJointName_fresh (nodes : List (String × LinkNode)) :
    getNextJointName nodes ∉ gatherJointNames nodes none :=
  nextJointNameFromUsed_fresh _

theorem getNextJointNameFor_fresh (nodes : List (String × LinkNode)) (jointId : String) :
    getNextJointNameFor nodes jointId ∉ gatherJointNames nodes (some jointId) :=
  nextJointNameFromUsed_fresh _

/-! ### Record and name-table plumbing -/

theorem map_id_of_ne_key {β : Type} (l : List (String × β)) (k : String) (n : β)
    (h : ∀ p ∈ l, p.1 ≠ k) :
    l.map (fun p => if p.1 == k then (k, n) else p) = l := by
  induction l with
  | nil => rfl
  | cons q rest ih =>
    rw [List.map_cons,
        if_neg (by simp only [beq_iff_eq]; exact h q (List.mem_cons_self q rest)),
        ih (fun p hp => h p (List.mem_cons_of_mem q hp))]

theorem recordSetNode_decomp (pre post : List (String × LinkNode)) (k : String)
    (node0 n : LinkNode) (hpre : ∀ p ∈ pre, p.1 ≠ k) (hpost : ∀ p ∈ post, p.1 ≠ k) :
    recordSetNode (pre ++ (k, node0) :: post) k n = pre ++ (k, n) :: post := by
  have hany : (pre ++ (k, node0) :: post).any (fun p => p.1 == k) = true := by
    simp
  simp only [recordSetNode, if_pos hany, List.map_append, List.map_cons]
  rw [map_id_of_ne_key pre k n hpre, map_id_of_ne_key post k n hpost]
  simp

theorem mem_recordSetNode {nodes : List (String × LinkNode)} {k : String}
    {n : LinkNode} {p : String × LinkNode} (h : p ∈ recordSetNode nodes k n) :
    p ∈ nodes ∨ p = (k, n) := by
  simp only [recordSetNode] at h
  split at h
  · rcases List.mem_map.mp h with ⟨q, hq, hfq⟩
    by_cases hqk : (q.1 == k) = true
    · right; rw [if_pos hqk] at hfq; exact hfq.symm
    · left; rw [if_neg hqk] at hfq; rw [← hfq]; exact hq
  · rcases List.mem_append.mp h with h1 | h1
    · left; exact h1
    · right; simpa using h1

theorem mem_of_lookup {nodes : List (String × LinkNode)} {k : String} {node : LinkNode}
    (h : lookupStoreNode nodes k = some node) : (k, node) ∈ nodes := by
  rw [lookupStoreNode] at h
  cases hf : nodes.find? (fun p => p.1 == k) with
  | none => rw [hf] at h; simp at h
  | some q =>
    rw [hf] at h
    simp only [Option.map_some'] at h
    have hq := List.find?_some hf
    have hqm := List.mem_of_find?_eq_some hf
    rcases q with ⟨a, b⟩
    simp only [beq_iff_eq] at hq
    cases h
    rw [← hq]
    exact hqm

theorem decomp_of_lookup :
    ∀ (nodes : List (String × LinkNode)) (k : String) (node : LinkNode),
      lookupStoreNode nodes k = some node →
      ∃ pre post, nodes = pre ++ (k, node) :: post ∧ (∀ p ∈ pre, p.1 ≠ k) := by
  intro nodes
  induction nodes with
  | nil => intro k node h; simp [lookupStoreNode] at h
  | cons q rest ih =>
    intro k node h
    rw [lookupStoreNode] at h
    by_cases hq : q.1 = k
    · rw [List.find?_cons_of_pos _ (by simpa using hq)] at h
      simp only [Option.map_some'] at h
      rcases q with ⟨a, b⟩
      cases h
      refine ⟨[], rest, ?_, by simp⟩
      simp only [List.nil_append, List.cons.injEq, and_true]
      exact Prod.ext hq rfl
    · rw [List.find?_cons_of_neg _ (by simpa using hq)] at h
      obtain ⟨pre, post, hdec, hpre⟩ := ih k node (by rw [lookupStoreNode]; exact h)
      refine ⟨q :: pre, post, by rw [List.cons_append, ← hdec], ?_⟩
      intro p hp
      rcases List.mem_cons.mp hp with h1 | h1
      · rw [h1]; exact hq
      · exact hpre p h1

theorem keys_decomp {nodes pre post : List (String × LinkNode)} {k : String}
    {node : LinkNode} (hk : KeysNodup nodes) (hd : nodes = pre ++ (k, node) :: post) :
    ∀ p ∈ post, p.1 ≠ k := by
  subst hd
  have h2 : ((pre.map Prod.fst) ++ k :: post.map Prod.fst).Nodup := by
    simpa [KeysNodup] using hk
  have h3 := (List.nodup_append.mp h2).2.1
  have h4 := (List.nodup_cons.mp h3).1
  intro p hp hpk
  exact h4 (by rw [← hpk]; exact List.mem_map_of_mem Prod.fst hp)

theorem gatherJointNames_append (l₁ l₂ : List (String × LinkNode))
    (ign : Option String) :
    gatherJointNames (l₁ ++ l₂) ign = gatherJointNames l₁ ign ++ gatherJointNames l₂ ign := by
  simp [gatherJointNames]

theorem gatherJointNames_cons (p : String × LinkNode) (l : List (String × LinkNode))
    (ign : Option String) :
    gatherJointNames (p :: l) ign =
      p.2.joints.filterMap (keepName ign) ++ gatherJointNames l ign := by
  simp [gatherJointNames]

theorem filterMap_cons_toList {α β : Type} (f : α → Option β) (a : α) (l : List α) :
    (a :: l).filterMap f = (f a).toList ++ l.filterMap f := by
  cases h : f a <;> simp [List.filterMap_cons, h]

theorem keepName_of_ne {iid : String} {j : JointDefinition} (h : j.id ≠ iid) :
    keepName (some iid) j = keepName none j := by
  simp only [keepName]
  rw [if_neg (fun hc => h hc.2)]

theorem keepName_self {iid : String} {j : JointDefinition} (h1 : iid ≠ "")
    (h2 : j.id = iid) : keepName (some iid) j = none := by
  simp only [keepName]
  rw [if_pos ⟨h1, h2⟩]

theorem keepName_name_congr {j j2 : JointDefinition} (h : j.name = j2.name) :
    keepName none j = keepName none j2 := by
  simp only [keepName, h]

theorem keepName_eq_some {j : JointDefinition} (h : j.name ≠ "") :
    keepName none j = some j.name := by
  simp only [keepName]
  rw [if_neg h]

theorem filterMap_keepName_congr (js : List JointDefinition) (iid : String)
    (h : ∀ j ∈ js, j.id ≠ iid) :
    js.filterMap (keepName (some iid)) = js.filterMap (keepName none) :=
  List.filterMap_congr (fun j hj => keepName_of_ne (h j hj))

theorem gather_congr_of_no_id (l : List (String × LinkNode)) (iid : String)
    (h : ∀ p ∈ l, ∀ j ∈ p.2.joints, j.id ≠ iid) :
    gatherJointNames l (some iid) = gatherJointNames l none := by
  induction l with
  | nil => rfl
  | cons p rest ih =>
    rw [gatherJointNames_cons, gatherJointNames_cons,
        filterMap_keepName_congr _ _ (h p (List.mem_cons_self p rest)),
        ih (fun q hq j hj => h q (List.mem_cons_of_mem p hq) j hj)]

theorem modifyAt_split {α : Type} (f : α → α) :
    ∀ (l : List α) (i : Nat) (a : α), l[i]? = some a →
      l = l.take i ++ a :: l.drop (i + 1) ∧
      Kin.modifyAt f i l = l.take i ++ f a :: l.drop (i + 1) := by
  intro l
  induction l with
  | nil => intro i a h; simp at h
  | cons x xs ih =>
    intro i a h
    cases i with
    | zero =>
      simp only [List.getElem?_cons_zero, Option.some.injEq] at h
      subst h
      constructor <;> simp [Kin.modifyAt]
    | succ i =>
      simp only [List.getElem?_cons_succ] at h
      obtain ⟨h1, h2⟩ := ih i a h
      constructor
      · simp only [List.take_succ_cons, List.drop_succ_cons, List.cons_append]
        exact congrArg (List.cons x) h1
      · simp only [Kin.modifyAt, List.take_succ_cons, List.drop_succ_cons,
          List.cons_append]
        exact congrArg (List.cons x) h2

theorem mem_modifyAt {α : Type} (f : α → α) :
    ∀ (l : List α) (i : Nat) (a : α), a ∈ Kin.modifyAt f i l →
      a ∈ l ∨ ∃ b ∈ l, a = f b := by
  intro l
  induction l with
  | nil => intro i a h; simp [Kin.modifyAt] at h
  | cons x xs ih =>
    intro i a h
    cases i with
    | zero =>
      simp only [Kin.modifyAt] at h
      rcases List.mem_cons.mp h with h1 | h1
      · right; exact ⟨x, List.mem_cons_self x xs, h1⟩
      · left; exact List.mem_cons_of_mem x h1
    | succ i =>
      simp only [Kin.modifyAt] at h
      rcases List.mem_cons.mp h with h1 | h1
      · left; rw [h1]; exact List.mem_cons_self x xs
      · rcases ih i a h1 with h2 | ⟨b, hb, h3⟩
        · left; exact List.mem_cons_of_mem x h2
        · right; exact ⟨b, List.mem_cons_of_mem x hb, h3⟩

theorem findIdx?_prop {p : JointDefinition → Bool} {l : List JointDefinition} {i : Nat}
    (h : List.findIdx? p l = some i) : ∃ a, l[i]? = some a ∧ p a = true := by
  rw [List.findIdx?_eq_some_iff_getElem] at h
  obtain ⟨hlen, hp, _⟩ := h
  exact ⟨l.get ⟨i, hlen⟩, by simp [List.getElem?_eq_getElem hlen], hp⟩

theorem nodup_segment_replace {X Y c c2 : List String}
    (hold : (X ++ (c ++ Y)).Nodup) (hc2 : c2.Nodup)
    (hdis : ∀ x ∈ c2, x ∉ X ++ Y) : (X ++ (c2 ++ Y)).Nodup := by
  have perm1 : List.Perm (X ++ (c ++ Y)) (c ++ (X ++ Y)) := by
    rw [← List.append_assoc, ← List.append_assoc]
    exact List.perm_append_comm.append_right Y
  have perm2 : List.Perm (X ++ (c2 ++ Y)) (c2 ++ (X ++ Y)) := by
    rw [← List.append_assoc, ← List.append_assoc]
    exact List.perm_append_comm.append_right Y
  have h1 : (X ++ Y).Nodup := (perm1.nodup_iff.mp hold).of_append_right
  refine perm2.nodup_iff.mpr ?_
  rw [List.nodup_append]
  exact ⟨hc2, h1, fun a ha hb => hdis a ha hb⟩

theorem clamp_bounds {lo hi v : ℚ} (h : lo ≤ hi) :
    lo ≤ min (max v lo) hi ∧ min (max v lo) hi ≤ hi :=
  ⟨le_min (le_max_right v lo) h, min_le_right _ _⟩

theorem normalizePair_le (l : ℚ × ℚ) : (normalizePair l).1 ≤ (normalizePair l).2 := by
  rw [normalizePair]
  split
  · rename_i h; exact h
  · rename_i h; exact le_of_not_le h

/-! ### Preservation of scene-wide name uniqueness -/

theorem namesUnique_append_aux (nodes : List (String × LinkNode)) (nodeId : String)
    (node : LinkNode) (nj : JointDefinition)
    (hk : KeysNodup nodes) (hnu : NamesUnique nodes)
    (h1 : lookupStoreNode nodes nodeId = some node)
    (hfresh : nj.name ∉ gatherJointNames nodes none)
    (hne : nj.name ≠ "") :
    NamesUnique (recordSetNode nodes nodeId
      { node with joints := node.joints ++ [nj] }) := by
  obtain ⟨pre, post, hdec, hpre⟩ := decomp_of_lookup nodes nodeId node h1
  have hpost := keys_decomp hk hdec
  have hgather : gatherJointNames nodes none =
      gatherJointNames pre none ++
        (node.joints.filterMap (keepName none) ++ gatherJointNames post none) := by
    rw [hdec, gatherJointNames_append, gatherJointNames_cons]
  rw [NamesUnique] at hnu ⊢
  rw [hdec, recordSetNode_decomp pre post nodeId node _ hpre hpost,
      gatherJointNames_append, gatherJointNames_cons]
  dsimp only
  rw [List.filterMap_append,
      show List.filterMap (keepName none) [nj] = [nj.name] by
        simp [List.filterMap_cons, keepName_eq_some hne]]
  have hold : ((gatherJointNames pre none ++ node.joints.filterMap (keepName none)) ++
      ([] ++ gatherJointNames post none)).Nodup := by
    simpa [hgather, List.append_assoc] using hnu
  have hdis : ∀ x ∈ [nj.name],
      x ∉ (gatherJointNames pre none ++ node.joints.filterMap (keepName none)) ++
        gatherJointNames post none := by
    intro x hx
    simp only [List.mem_singleton] at hx
    subst hx
    intro hmem
    apply hfresh
    rw [hgather]
    simpa [List.append_assoc] using hmem
  have hnew := nodup_segment_replace hold (by simp) hdis
  simpa [List.append_assoc] using hnew

theorem namesUnique_updateJoint_aux
    (nodes : List (String × LinkNode)) (nodeId jointId : String)
    (node : LinkNode) (index : Nat) (cur nj : JointDefinition)
    (hk : KeysNodup nodes) (hids : (allJointIds nodes).Nodup) (hjid : jointId ≠ "")
    (hnu : NamesUnique nodes)
    (h1 : lookupStoreNode nodes nodeId = some node)
    (h3 : node.joints[index]? = some cur)
    (hcurid : cur.id = jointId)
    (hname : nj.name = cur.name ∨
      (nj.name ∉ gatherJointNames nodes (some jointId) ∧ nj.name ≠ "")) :
    NamesUnique (recordSetNode nodes nodeId
      { node with joints := Kin.modifyAt (fun _ => nj) index node.joints }) := by
  obtain ⟨pre, post, hdec, hpre⟩ := decomp_of_lookup nodes nodeId node h1
  have hpost := keys_decomp hk hdec
  obtain ⟨hsplit, hmod⟩ := modifyAt_split (fun _ => nj) node.joints index cur h3
  -- the id of the addressed joint occurs nowhere else in the scene
  have hidsdec : allJointIds nodes =
      (allJointIds pre ++ (node.joints.take index).map (fun j => j.id)) ++
        cur.id :: ((node.joints.drop (index + 1)).map (fun j => j.id) ++
          allJointIds post) := by
    rw [hdec]
    simp only [allJointIds, List.flatMap_append, List.flatMap_cons]
    conv_lhs => rw [hsplit]
    simp [List.append_assoc]
  have hids2 : jointId ∉ (allJointIds pre ++
      (node.joints.take index).map (fun j => j.id)) ++
        ((node.joints.drop (index + 1)).map (fun j => j.id) ++ allJointIds post) := by
    have hperm := (List.perm_middle (a := cur.id)).nodup_iff.mp (hidsdec ▸ hids)
    rw [← hcurid]
    exact (List.nodup_cons.mp hperm).1
  simp only [List.mem_append, not_or] at hids2
  obtain ⟨⟨hidpre, hidt⟩, hidd, hidpost⟩ := hids2
  have hnopre : ∀ p ∈ pre, ∀ j ∈ p.2.joints, j.id ≠ jointId := by
    intro p hp j hj e
    exact hidpre (List.mem_flatMap.mpr ⟨p, hp, by
      rw [← e]; exact List.mem_map_of_mem (fun j => j.id) hj⟩)
  have hnopost : ∀ p ∈ post, ∀ j ∈ p.2.joints, j.id ≠ jointId := by
    intro p hp j hj e
    exact hidpost (List.mem_flatMap.mpr ⟨p, hp, by
      rw [← e]; exact List.mem_map_of_mem (fun j => j.id) hj⟩)
  have hnot : ∀ j ∈ node.joints.take index, j.id ≠ jointId := by
    intro j hj e
    exact hidt (by rw [← e]; exact List.mem_map_of_mem (fun j => j.id) hj)
  have hnod : ∀ j ∈ node.joints.drop (index + 1), j.id ≠ jointId := by
    intro j hj e
    exact hidd (by rw [← e]; exact List.mem_map_of_mem (fun j => j.id) hj)
  -- gather decompositions, in ignore-free form
  have hnone : gatherJointNames nodes none =
      gatherJointNames pre none ++
        (((node.joints.take index).filterMap (keepName none) ++
          ((keepName none cur).toList ++
            (node.joints.drop (index + 1)).filterMap (keepName none))) ++
          gatherJointNames post none) := by
    rw [hdec, gatherJointNames_append, gatherJointNames_cons]
    dsimp only
    conv_lhs => rw [hsplit]
    rw [List.filterMap_append, filterMap_cons_toList]
  have hsome : gatherJointNames nodes (some jointId) =
      gatherJointNames pre none ++
        (((node.joints.take index).filterMap (keepName none) ++
          (node.joints.drop (index + 1)).filterMap (keepName none)) ++
          gatherJointNames post none) := by
    rw [hdec, gatherJointNames_append, gatherJointNames_cons,
        gather_congr_of_no_id pre jointId hnopre,
        gather_congr_of_no_id post jointId hnopost]
    dsimp only
    conv_lhs => rw [hsplit]
    rw [List.filterMap_append, filterMap_cons_toList, keepName_self hjid hcurid,
        filterMap_keepName_congr _ _ hnot, filterMap_keepName_congr _ _ hnod]
    simp
  rw [NamesUnique] at hnu ⊢
  rw [hdec, recordSetNode_decomp pre post nodeId node _ hpre hpost,
      gatherJointNames_append, gatherJointNames_cons]
  dsimp only
  rw [hmod, List.filterMap_append, filterMap_cons_toList]
  rcases hname with hn | ⟨hfr, hne⟩
  · rw [keepName_name_congr hn]
    rw [hnone] at hnu
    simpa [List.append_assoc] using hnu
  · rw [keepName_eq_some hne]
    have hold : ((gatherJointNames pre none ++
        (node.joints.take index).filterMap (keepName none)) ++
        ((keepName none cur).toList ++
          ((node.joints.drop (index + 1)).filterMap (keepName none) ++
            gatherJointNames post none))).Nodup := by
      rw [hnone] at hnu
      simpa [List.append_assoc] using hnu
    have hdis : ∀ x ∈ [nj.name],
        x ∉ (gatherJointNames pre none ++
          (node.joints.take index).filterMap (keepName none)) ++
          ((node.joints.drop (index + 1)).filterMap (keepName none) ++
            gatherJointNames post none) := by
      intro x hx
      simp only [List.mem_singleton] at hx
      subst hx
      intro hmem
      apply hfr
      rw [hsome]
      simpa [List.append_assoc] using hmem
    have hnew := nodup_segment_replace hold (by simp) hdis
    simpa [List.append_assoc] using hnew

/-! ### C4: limit normalization and value clamping -/

/-- **C4.** Every joint-update write normalizes the supplied (or kept)
limits so that min ≤ max regardless of input order, and stores
`currentValue = min (max v limits.1) limits.2` under the normalized
limits, for every supplied value `v`; consequently every store operation
that writes joint values (`updateJoint`, `addJoint`, `addLink`,
`applyInterpolatedJointValues`, `applyRemoteJointValues`) preserves the
invariant that each joint's `currentValue` lies within its ordered
limits. -/
theorem c4_limit_clamping :
    (∀ (state : SceneState) (nodeId jointId : String) (patch : JointPatch)
        (node : LinkNode) (index : Nat) (j : JointDefinition),
        lookupStoreNode state.nodes nodeId = some node →
        node.joints.findIdx? (fun j2 => j2.id == jointId) = some index →
        node.joints[index]? = some j →
        ∃ j2 : JointDefinition,
          (updateJoint state nodeId jointId patch).nodes =
            recordSetNode state.nodes nodeId
              { node with joints := Kin.modifyAt (fun _ => j2) index node.joints } ∧
          j2.limits = normalizePair (patch.limits.getD j.limits) ∧
          j2.limits.1 ≤ j2.limits.2 ∧
          j2.currentValue =
            min (max (patch.currentValue.getD j.currentValue) j2.limits.1)
              j2.limits.2 ∧
          JointOk j2) ∧
    (∀ (state : SceneState) (nodeId jointId : String) (patch : JointPatch),
        StateOk state.nodes → StateOk (updateJoint state nodeId jointId patch).nodes) ∧
    (∀ (state : SceneState) (nodeId : String) (t : MotionType),
        StateOk state.nodes → StateOk (addJoint state nodeId t).nodes) ∧
    (∀ (state : SceneState) (kind : MeshKind) (color : String),
        StateOk state.nodes → StateOk (addLink state kind color).nodes) ∧
    (∀ (state : SceneState) (values : List (String × ℚ)),
        StateOk state.nodes →
        StateOk (applyInterpolatedJointValues state values).nodes) ∧
    (∀ (state : SceneState) (values : List (String × ℚ)) (source : NetworkSource),
        StateOk state.nodes →
        StateOk (applyRemoteJointValues state values source).nodes) := by
  refine ⟨?_, ?_, ?_, ?_, ?_, ?_⟩
  · -- the updateJoint write formula
    intro state nodeId jointId patch node index j h1 h2 h3
    refine ⟨{ id := patch.id.getD j.id, type := patch.type.getD j.type,
              axis := patch.axis.getD j.axis,
              limits := normalizePair (patch.limits.getD j.limits),
              currentValue :=
                min (max (patch.currentValue.getD j.currentValue)
                    (normalizePair (patch.limits.getD j.limits)).1)
                  (normalizePair (patch.limits.getD j.limits)).2,
              name := match patch.name with
                | none => j.name
                | some proposed =>
                    match sanitizeJointName state.nodes proposed jointId j.name with
                    | none => getNextJointNameFor state.nodes jointId
                    | some s2 => s2,
              externalControl := patch.externalControl.getD j.externalControl,
              pivot := patch.pivot.getD j.pivot },
            ?_, rfl, normalizePair_le _, rfl,
            normalizePair_le _, (clamp_bounds (normalizePair_le _)).1,
            (clamp_bounds (normalizePair_le _)).2⟩
    simp only [updateJoint, h1, h2, h3]
  · -- updateJoint preserves the invariant
    intro state nodeId jointId patch hok
    cases h1 : lookupStoreNode state.nodes nodeId with
    | none => simpa [updateJoint, h1] using hok
    | some node =>
      cases h2 : node.joints.findIdx? (fun j2 => j2.id == jointId) with
      | none => simpa [updateJoint, h1, h2] using hok
      | some index =>
        cases h3 : node.joints[index]? with
        | none => simpa [updateJoint, h1, h2, h3] using hok
        | some cur =>
          simp only [updateJoint, h1, h2, h3]
          intro p hp j hj
          rcases mem_recordSetNode hp with hmem | heq
          · exact hok p hmem j hj
          · rw [heq] at hj
            dsimp only at hj
            rcases mem_modifyAt _ _ _ _ hj with hj2 | ⟨b, _, hjb⟩
            · exact hok (nodeId, node) (mem_of_lookup h1) j hj2
            · rw [hjb]
              exact ⟨normalizePair_le _, (clamp_bounds (normalizePair_le _)).1,
                (clamp_bounds (normalizePair_le _)).2⟩
  · -- addJoint preserves the invariant
    intro state nodeId t hok
    cases h1 : lookupStoreNode state.nodes nodeId with
    | none => simpa [addJoint, h1] using hok
    | some node =>
      simp only [addJoint, h1]
      intro p hp j hj
      rcases mem_recordSetNode hp with hmem | heq
      · exact hok p hmem j hj
      · rw [heq] at hj
        dsimp only at hj
        rcases List.mem_append.mp hj with hj1 | hj2
        · exact hok (nodeId, node) (mem_of_lookup h1) j hj1
        · simp only [List.mem_singleton] at hj2
          subst hj2
          cases t <;> simp only [JointOk] <;> decide
  · -- addLink preserves the invariant
    intro state kind color hok
    cases h1 : lookupStoreNode state.nodes (state.selectedId.getD state.rootId) with
    | none => simpa [addLink, h1] using hok
    | some parent =>
      simp only [addLink, h1]
      intro p hp j hj
      rcases mem_recordSetNode hp with hp1 | heq
      · rcases mem_recordSetNode hp1 with hp2 | heq2
        · exact hok p hp2 j hj
        · rw [heq2] at hj
          dsimp only at hj
          simp only [List.mem_singleton] at hj
          subst hj
          simp only [JointOk]
          norm_num
      · rw [heq] at hj
        dsimp only at hj
        exact hok (state.selectedId.getD state.rootId, parent) (mem_of_lookup h1) j hj
  · -- applyInterpolatedJointValues preserves the invariant
    intro state values hok p hp j hj
    simp only [applyInterpolatedJointValues] at hp
    rcases List.mem_map.mp hp with ⟨q, hq, hfq⟩
    rw [← hfq] at hj
    dsimp only at hj
    rcases List.mem_map.mp hj with ⟨j0, hj0, hgj⟩
    have hok0 := hok q hq j0 hj0
    rw [← hgj]
    cases hlv : lookupQ values j0.name with
    | none => simpa [hlv] using hok0
    | some v =>
      simp only [hlv]
      split
      · exact ⟨hok0.1, (clamp_bounds hok0.1).1, (clamp_bounds hok0.1).2⟩
      · exact hok0
  · -- applyRemoteJointValues preserves the invariant
    intro state values source hok p hp j hj
    simp only [applyRemoteJointValues] at hp
    rcases List.mem_map.mp hp with ⟨q, hq, hfq⟩
    rw [← hfq] at hj
    dsimp only at hj
    rcases List.mem_map.mp hj with ⟨j0, hj0, hgj⟩
    have hok0 := hok q hq j0 hj0
    rw [← hgj]
    split
    · exact hok0
    · cases hlv : lookupQ values j0.name with
      | none => simpa [hlv] using hok0
      | some v =>
        simp only [hlv]
        split
        · exact ⟨hok0.1, (clamp_bounds hok0.1).1, (clamp_bounds hok0.1).2⟩
        · exact hok0

theorem c4_limit_clamping_witness :
    (∃ j2 : JointDefinition,
        (updateJoint sampleState "link-2" "joint-1"
            ⟨none, none, none, some (200, -50), some 500, none, none, none⟩).nodes =
          recordSetNode sampleState.nodes "link-2"
            { sampleRoot with
              joints := Kin.modifyAt (fun _ => j2) 0 sampleRoot.joints } ∧
        j2.limits =
          normalizePair ((some ((200 : ℚ), (-50 : ℚ))).getD sampleJoint.limits) ∧
        j2.limits.1 ≤ j2.limits.2 ∧
        j2.currentValue =
          min (max ((some (500 : ℚ)).getD sampleJoint.currentValue) j2.limits.1)
            j2.limits.2 ∧
        JointOk j2) ∧
    StateOk (addJoint sampleState "link-2" MotionType.linear).nodes := by
  constructor
  · exact c4_limit_clamping.1 sampleState "link-2" "joint-1"
      ⟨none, none, none, some (200, -50), some 500, none, none, none⟩
      sampleRoot 0 sampleJoint rfl rfl rfl
  · exact c4_limit_clamping.2.2.1 sampleState "link-2" MotionType.linear
      (by simp only [StateOk, JointOk]; decide)

theorem gatherJointNames_nil (ign : Option String) : gatherJointNames [] ign = [] := rfl

theorem namesUnique_addLink_aux (nodes : List (String × LinkNode))
    (pid newId w : String) (parent newNode : LinkNode) (ch : List String)
    (hk : KeysNodup nodes) (hnu : NamesUnique nodes)
    (h1 : lookupStoreNode nodes pid = some parent)
    (hfreshId : ∀ p ∈ nodes, p.1 ≠ newId)
    (hnames : newNode.joints.filterMap (keepName none) = [w])
    (hfresh : w ∉ gatherJointNames nodes none) :
    NamesUnique (recordSetNode (recordSetNode nodes newId newNode) pid
      { parent with children := ch }) := by
  obtain ⟨pre, post, hdec, hpre⟩ := decomp_of_lookup nodes pid parent h1
  have hpost := keys_decomp hk hdec
  have hany : nodes.any (fun p => p.1 == newId) = false := by
    rw [List.any_eq_false]
    intro p hp
    simpa using hfreshId p hp
  have happ : recordSetNode nodes newId newNode = nodes ++ [(newId, newNode)] := by
    rw [recordSetNode, if_neg (by rw [hany]; exact Bool.false_ne_true)]
  have hpid : pid ≠ newId := hfreshId (pid, parent) (mem_of_lookup h1)
  have hpost2 : ∀ p ∈ post ++ [(newId, newNode)], p.1 ≠ pid := by
    intro p hp
    rcases List.mem_append.mp hp with h' | h'
    · exact hpost p h'
    · simp only [List.mem_singleton] at h'
      rw [h']
      exact fun e => hpid e.symm
  rw [happ, hdec]
  simp only [List.append_assoc, List.cons_append]
  rw [recordSetNode_decomp pre (post ++ [(newId, newNode)]) pid parent _ hpre hpost2]
  rw [NamesUnique, gatherJointNames_append, gatherJointNames_cons,
      gatherJointNames_append, gatherJointNames_cons, gatherJointNames_nil]
  dsimp only
  rw [hnames]
  have hgather : gatherJointNames nodes none =
      gatherJointNames pre none ++
        (parent.joints.filterMap (keepName none) ++ gatherJointNames post none) := by
    rw [hdec, gatherJointNames_append, gatherJointNames_cons]
  have hnodup2 : ((gatherJointNames pre none ++
      (parent.joints.filterMap (keepName none) ++ gatherJointNames post none)) ++
      [w]).Nodup := by
    rw [List.nodup_append]
    refine ⟨by rw [← hgather]; exact hnu, by simp, ?_⟩
    intro a ha hb
    simp only [List.mem_singleton] at hb
    subst hb
    apply hfresh
    rw [hgather]
    exact ha
  simpa [List.append_assoc] using hnodup2

theorem nextName_spec (nodes : List (String × LinkNode)) (jointId curName nm : String)
    (pn : Option String)
    (hnm : nm = match pn with
      | none => curName
      | some proposed =>
          match sanitizeJointName nodes proposed jointId curName with
          | none => getNextJointNameFor nodes jointId
          | some s2 => s2) :
    nm = curName ∨
      (nm ∉ gatherJointNames nodes (some jointId) ∧ nm ≠ "") := by
  split at hnm
  · exact Or.inl hnm
  · rename_i proposed
    split at hnm
    · rw [hnm]
      exact Or.inr ⟨getNextJointNameFor_fresh nodes jointId,
        nextJointNameFromUsed_ne_empty _⟩
    · rename_i s2 heq
      simp only [sanitizeJointName] at heq
      split_ifs at heq with ht hm
      · rw [hnm, ← Option.some.inj heq]
        exact Or.inl rfl
      · rw [hnm, ← Option.some.inj heq]
        exact Or.inr ⟨hm, ht⟩

/-! ### C9: scene-wide joint-name uniqueness -/

/-- **C9.** `addJoint` and `addLink` always assign a freshly generated
joint name that is unused anywhere in the scene; when `updateJoint` is
given a proposed name already used by a different joint, the write still
succeeds, storing a freshly generated name in place of the duplicate
rather than being rejected; and each of these operations preserves
scene-wide joint-name uniqueness. -/
theorem c9_name_uniqueness :
    (∀ (state : SceneState) (nodeId : String) (t : MotionType) (node : LinkNode),
        lookupStoreNode state.nodes nodeId = some node →
        ∃ next : JointDefinition,
          (addJoint state nodeId t).nodes =
            recordSetNode state.nodes nodeId
              { node with joints := node.joints ++ [next] } ∧
          next.name = getNextJointName state.nodes ∧
          next.name ∉ gatherJointNames state.nodes none) ∧
    (∀ (state : SceneState) (kind : MeshKind) (color : String) (parent : LinkNode),
        lookupStoreNode state.nodes (state.selectedId.getD state.rootId) = some parent →
        ∃ (next : JointDefinition) (newNode : LinkNode),
          (addLink state kind color).nodes =
            recordSetNode (recordSetNode state.nodes newNode.id newNode)
              (state.selectedId.getD state.rootId)
              { parent with children := parent.children ++ [newNode.id] } ∧
          newNode.joints = [next] ∧
          next.name = getNextJointName state.nodes ∧
          next.name ∉ gatherJointNames state.nodes none) ∧
    (∀ (state : SceneState) (nodeId jointId : String) (patch : JointPatch)
        (node : LinkNode) (index : Nat) (j : JointDefinition) (proposed : String),
        lookupStoreNode state.nodes nodeId = some node →
        node.joints.findIdx? (fun j2 => j2.id == jointId) = some index →
        node.joints[index]? = some j →
        patch.name = some proposed →
        proposed.trim ≠ "" →
        proposed.trim ∈ gatherJointNames state.nodes (some jointId) →
        ∃ j2 : JointDefinition,
          (updateJoint state nodeId jointId patch).nodes =
            recordSetNode state.nodes nodeId
              { node with joints := Kin.modifyAt (fun _ => j2) index node.joints } ∧
          j2.name = getNextJointNameFor state.nodes jointId ∧
          j2.name ∉ gatherJointNames state.nodes (some jointId)) ∧
    (∀ (state : SceneState) (nodeId : String) (t : MotionType),
        KeysNodup state.nodes → NamesUnique state.nodes →
        NamesUnique (addJoint state nodeId t).nodes) ∧
    (∀ (state : SceneState) (kind : MeshKind) (color : String),
        KeysNodup state.nodes →
        (∀ p ∈ state.nodes,
          p.1 ≠ (createId "link" (createId "joint" state.idCounter).2).1) →
        NamesUnique state.nodes →
        NamesUnique (addLink state kind color).nodes) ∧
    (∀ (state : SceneState) (nodeId jointId : String) (patch : JointPatch),
        KeysNodup state.nodes → (allJointIds state.nodes).Nodup → jointId ≠ "" →
        NamesUnique state.nodes →
        NamesUnique (updateJoint state nodeId jointId patch).nodes) := by
  refine ⟨?_, ?_, ?_, ?_, ?_, ?_⟩
  · -- addJoint assigns a fresh unused name
    intro state nodeId t node h1
    refine ⟨⟨(createId "joint" state.idCounter).1, t, MotionAxis.z,
        if t = MotionType.linear then (0, 150) else (-90, 90),
        if t = MotionType.linear then
          (if t = MotionType.linear then ((0 : ℚ), (150 : ℚ)) else (-90, 90)).1
        else 0,
        getNextJointName state.nodes, false, getDefaultJointPivot node.geometry⟩,
      ?_, rfl, getNextJointName_fresh state.nodes⟩
    simp only [addJoint, h1]
  · -- addLink assigns a fresh unused name to the new node's joint
    intro state kind color parent h1
    refine ⟨⟨(createId "joint" state.idCounter).1, MotionType.rotational, MotionAxis.z,
        (-90, 90), 0, getNextJointName state.nodes, false,
        getDefaultJointPivot (createDefaultGeometry kind)⟩,
      ⟨(createId "link" (createId "joint" state.idCounter).2).1, linkNameFor kind,
        createDefaultGeometry kind, color, some (state.selectedId.getD state.rootId),
        [],
        (0, 0, (getGeometryBounds parent.geometry).height / 2 +
          (getGeometryBounds (createDefaultGeometry kind)).height / 2 + 0.05),
        [⟨(createId "joint" state.idCounter).1, MotionType.rotational, MotionAxis.z,
          (-90, 90), 0, getNextJointName state.nodes, false,
          getDefaultJointPivot (createDefaultGeometry kind)⟩], none⟩,
      ?_, rfl, rfl, getNextJointName_fresh state.nodes⟩
    simp only [addLink, h1]
  · -- a duplicate proposal to updateJoint stores a fresh generated name
    intro state nodeId jointId patch node index j proposed h1 h2 h3 hpn htrim hmem
    have hsan : sanitizeJointName state.nodes proposed jointId j.name = none := by
      simp only [sanitizeJointName]
      rw [if_neg htrim, if_pos hmem]
    refine ⟨{ id := patch.id.getD j.id, type := patch.type.getD j.type,
              axis := patch.axis.getD j.axis,
              limits := normalizePair (patch.limits.getD j.limits),
              currentValue :=
                min (max (patch.currentValue.getD j.currentValue)
                    (normalizePair (patch.limits.getD j.limits)).1)
                  (normalizePair (patch.limits.getD j.limits)).2,
              name := getNextJointNameFor state.nodes jointId,
              externalControl := patch.externalControl.getD j.externalControl,
              pivot := patch.pivot.getD j.pivot },
            ?_, rfl, getNextJointNameFor_fresh state.nodes jointId⟩
    simp only [updateJoint, h1, h2, h3, hpn, hsan]
  · -- addJoint preserves uniqueness
    intro state nodeId t hk hnu
    cases h1 : lookupStoreNode state.nodes nodeId with
    | none => simpa [addJoint, h1] using hnu
    | some node =>
      simp only [addJoint, h1]
      exact namesUnique_append_aux state.nodes nodeId node _ hk hnu h1
        (getNextJointName_fresh state.nodes) (nextJointNameFromUsed_ne_empty _)
  · -- addLink preserves uniqueness
    intro state kind color hk hfreshId hnu
    cases h1 : lookupStoreNode state.nodes (state.selectedId.getD state.rootId) with
    | none => simpa [addLink, h1] using hnu
    | some parent =>
      simp only [addLink, h1]
      refine namesUnique_addLink_aux state.nodes _ _ _ parent _ _ hk hnu h1 hfreshId ?_
        (getNextJointName_fresh state.nodes)
      dsimp only
      rw [filterMap_cons_toList,
          keepName_eq_some (nextJointNameFromUsed_ne_empty
            (gatherJointNames state.nodes none))]
      rfl
  · -- updateJoint preserves uniqueness
    intro state nodeId jointId patch hk hids hjid hnu
    cases h1 : lookupStoreNode state.nodes nodeId with
    | none => simpa [updateJoint, h1] using hnu
    | some node =>
      cases h2 : node.joints.findIdx? (fun j2 => j2.id == jointId) with
      | none => simpa [updateJoint, h1, h2] using hnu
      | some index =>
        cases h3 : node.joints[index]? with
        | none => simpa [updateJoint, h1, h2, h3] using hnu
        | some cur =>
          simp only [updateJoint, h1, h2, h3]
          have hcurid : cur.id = jointId := by
            obtain ⟨a, ha, hpa⟩ := findIdx?_prop h2
            rw [h3] at ha
            have haa : a = cur := (Option.some.inj ha).symm
            subst haa
            simpa using hpa
          apply namesUnique_updateJoint_aux state.nodes nodeId jointId node index cur _
            hk hids hjid hnu h1 h3 hcurid
          exact nextName_spec state.nodes jointId cur.name _ patch.name rfl

theorem c9_name_uniqueness_witness :
    (∃ next : JointDefinition,
        (addJoint sampleState "link-2" MotionType.rotational).nodes =
          recordSetNode sampleState.nodes "link-2"
            { sampleRoot with joints := sampleRoot.joints ++ [next] } ∧
        next.name = getNextJointName sampleState.nodes ∧
        next.name ∉ gatherJointNames sampleState.nodes none) ∧
    NamesUnique (addJoint sampleState "link-2" MotionType.rotational).nodes ∧
    NamesUnique (addLink sampleState MeshKind.box "#ff0000").nodes :=
  ⟨c9_name_uniqueness.1 sampleState "link-2" MotionType.rotational sampleRoot rfl,
   c9_name_uniqueness.2.2.2.1 sampleState "link-2" MotionType.rotational
     (by rw [KeysNodup]; decide) (by rw [NamesUnique]; decide),
   c9_name_uniqueness.2.2.2.2.1 sampleState MeshKind.box "#ff0000"
     (by rw [KeysNodup]; decide) (by decide) (by rw [NamesUnique]; decide)⟩

end Store

end RobotBuilder
